import Mathlib

/- Shallow embedding of the graph construction utilities of
   src/utils/chartOptions.js: record normalization, the node registry with
   its mixed promotion, platform discovery and ordering, entity and cross
   platform link synthesis, and the hover highlight overlay of
   getChartOptions.  Geometry that depends on transcendental functions or
   on randomness is modelled separately: calculateSymbolSize over the
   reals, and the Venn layer, slot and angle formulas over the rationals
   with the random draw passed in explicitly. -/

/- JavaScript (x || d) for an optional string field: an absent field and
   the empty string both fall back to the default. -/
def jsStr (o : Option String) (d : String) : String :=
  match o with
  | none => d
  | some s => if s = "" then d else s

/- JavaScript (x || 0) for an optional numeric field. -/
def jsInt (o : Option Int) : Int := o.getD 0

/- A colorMap object lookup, colorMap[k] || d. -/
def lookupColor (cm : List (String × String)) (k : String) (d : String) : String :=
  match cm.find? (fun p => p.1 == k) with
  | none => d
  | some p => if p.2 = "" then d else p.2

/- One row of sourceEntityList.  Absent object fields are none. -/
structure SrcRec where
  data_platform : Option String
  source_application_name : Option String
  source_table_count : Option Int
deriving DecidableEq

/- One row of downstreamEntityList. -/
structure DsRec where
  data_platform : Option String
  downstream_application_name : Option String
  share_to_downstream_table_count : Option Int
deriving DecidableEq

/- The type tag written into each produced node. -/
inductive NodeType
  | dataplatform
  | source
  | downstream
  | mixed
deriving DecidableEq

/- The symbolSize expression assigned at node creation: platform nodes get
   the literal 120, entity nodes get calculateSymbolSize of the table
   count of the creating record.  The real valued evaluation is the
   separate function evalSymSpec. -/
inductive SymSpec
  | fixed (size : Nat)
  | scaled (tables : Int)
deriving DecidableEq

/- Structural content of a produced node.  ntype embeds the type field,
   dataPlatform is absent on platform nodes, tables is absent on platform
   nodes (adding a count to an absent field is NaN in JavaScript, modelled
   by none being absorbing in addTables). -/
structure Node where
  id : String
  name : String
  tables : Option Int
  ntype : NodeType
  dataPlatform : Option String
  isMixed : Bool
  sym : SymSpec
  color : String
deriving DecidableEq

/- lineStyle.type of a produced link. -/
inductive LineType
  | solid
  | dashed
deriving DecidableEq

/- Structural content of a produced link. -/
structure Link where
  source : String
  target : String
  value : Int
  ltype : LineType
deriving DecidableEq

structure Graph where
  nodes : List Node
  links : List Link
deriving DecidableEq

/- toLowerCase(), written over the character list so that it evaluates
   inside the kernel. -/
def jsToLower (s : String) : String := ⟨s.data.map Char.toLower⟩

/- Key added to dataplatformSet for a record:
   (row?.[data_platform] || Unknown).toLowerCase(). -/
def srcSetKey (r : SrcRec) : String := jsToLower (jsStr r.data_platform ("Unknown"))

def dsSetKey (r : DsRec) : String := jsToLower (jsStr r.data_platform ("Unknown"))

/- Key used to group and link a record to its platform:
   row?.[data_platform]?.toLowerCase() || Unknown.  Note the default here
   keeps its capital U while the set key above is lower cased. -/
def srcGroupKey (r : SrcRec) : String := jsStr (r.data_platform.map jsToLower) ("Unknown")

def dsGroupKey (r : DsRec) : String := jsStr (r.data_platform.map jsToLower) ("Unknown")

/- Insertion order deduplication, the iteration order of a JavaScript Set. -/
def dedupAux : List String → List String → List String
  | _, [] => []
  | seen, x :: xs => if x ∈ seen then dedupAux seen xs else x :: dedupAux (x :: seen) xs

def dedupKeep (l : List String) : List String := dedupAux [] l

/- name.includes(pat): substring test over character lists. -/
def leadMatch : List Char → List Char → Bool
  | [], _ => true
  | _ :: _, [] => false
  | p :: ps, c :: cs => p == c && leadMatch ps cs

def hasSub (pat : List Char) : List Char → Bool
  | [] => leadMatch pat []
  | c :: cs => leadMatch pat (c :: cs) || hasSub pat cs

def jsIncludes (s pat : String) : Bool := hasSub pat.data s.data

/- The category rank used by the Venn platform sort comparator. -/
def getTypeValue (name : String) : Nat :=
  if jsIncludes name ("warehouse") then 1
  else if jsIncludes name ("lake") then 2
  else if jsIncludes name ("stream") then 3
  else if jsIncludes name ("big data") then 4
  else if jsIncludes name ("mesh") then 5
  else 6

/- Stable insertion sort; le y x means the comparator allows y to stay in
   front of x, so x is inserted behind every equal element, which is the
   stability guarantee of Array.prototype.sort. -/
def insertLeB {α : Type} (le : α → α → Bool) (x : α) : List α → List α
  | [] => [x]
  | y :: ys => if le y x then y :: insertLeB le x ys else x :: y :: ys

def stableSortBy {α : Type} (le : α → α → Bool) (l : List α) : List α :=
  l.foldl (fun acc x => insertLeB le x acc) []

/- The discovered platform key list, in first discovery order over the
   concatenation of source rows then downstream rows. -/
def discoveredPlatforms (src : List SrcRec) (ds : List DsRec) : List String :=
  dedupKeep (src.map srcSetKey ++ ds.map dsSetKey)

/- getMainGraphData iterates Array.from(dataplatformSet) unsorted. -/
def mainPlatformOrder (src : List SrcRec) (ds : List DsRec) : List String :=
  discoveredPlatforms src ds

/- getVennNetworkLayout sorts the platform list by category rank first. -/
def vennPlatformOrder (src : List SrcRec) (ds : List DsRec) : List String :=
  stableSortBy (fun a b => decide (getTypeValue a ≤ getTypeValue b)) (discoveredPlatforms src ds)

/- Platform node construction, identical in both builders. -/
def mkPlatformNode (cm : List (String × String)) (k : String) : Node :=
  { id := k, name := k, tables := none, ntype := NodeType.dataplatform,
    dataPlatform := none, isMixed := false, sym := SymSpec.fixed 120,
    color := lookupColor cm (jsToLower k) ("#4285F4") }

/- [...list].sort((a, b) => (b.count || 0) - (a.count || 0)). -/
def sortSrc (l : List SrcRec) : List SrcRec :=
  stableSortBy (fun a b => decide (jsInt b.source_table_count ≤ jsInt a.source_table_count)) l

def sortDs (l : List DsRec) : List DsRec :=
  stableSortBy
    (fun a b => decide (jsInt b.share_to_downstream_table_count ≤ jsInt a.share_to_downstream_table_count)) l

/- nodeMap.has(k); the registry holds platform and entity nodes alike. -/
def hasNode (ns : List Node) (k : String) : Bool := ns.any (fun n => n.id == k)

/- Mutation of the unique node with the given id. -/
def updateFirst (f : Node → Node) (k : String) : List Node → List Node
  | [] => []
  | n :: ns => if n.id == k then f n :: ns else n :: updateFirst f k ns

/- existingNode.tables += c; on a platform node, which has no tables
   field, JavaScript produces NaN, modelled by an absorbing none. -/
def addTables (t : Option Int) (c : Int) : Option Int :=
  match t with
  | none => none
  | some v => some (v + c)

def srcName (r : SrcRec) : String := jsStr r.source_application_name ("Unknown")

def srcCnt (r : SrcRec) : Int := jsInt r.source_table_count

def srcKey (r : SrcRec) : String := jsToLower (srcName r)

def dsName (r : DsRec) : String := jsStr r.downstream_application_name ("Unknown")

def dsCnt (r : DsRec) : Int := jsInt r.share_to_downstream_table_count

def dsKey (r : DsRec) : String := jsToLower (dsName r)

/- The downstream upsert on an existing node: add the count, and when the
   node was a source, promote it to mixed and remap its color.  The
   dataPlatform field is left untouched. -/
def promoteMixed (mixedColor : String) (c : Int) (n : Node) : Node :=
  let n2 : Node := { n with tables := addTables n.tables c }
  if n2.ntype = NodeType.source then
    { n2 with ntype := NodeType.mixed, isMixed := true, color := mixedColor }
  else n2

/- The node registry effect of one source row, shared by both builders:
   an existing node only accumulates tables; otherwise a node is created
   when the creation guard holds (getMainGraphData requires the platform
   key to resolve to a region node, the Venn builder creates always). -/
def genSrcNodes (mk : SrcRec → Node) (guard : SrcRec → Bool) (ns : List Node) (r : SrcRec) :
    List Node :=
  if hasNode ns (srcKey r) then
    updateFirst (fun n => { n with tables := addTables n.tables (srcCnt r) }) (srcKey r) ns
  else if guard r then ns ++ [mk r] else ns

/- The node registry effect of one downstream row, shared by both
   builders: an existing node takes the promoteMixed upsert. -/
def genDsNodes (mk : DsRec → Node) (guard : DsRec → Bool) (mixColor : String)
    (ns : List Node) (r : DsRec) : List Node :=
  if hasNode ns (dsKey r) then
    updateFirst (promoteMixed mixColor (dsCnt r)) (dsKey r) ns
  else if guard r then ns ++ [mk r] else ns

/- getMainGraphData source node body (positions and label omitted). -/
def mkMainSrcNode (cm : List (String × String)) (r : SrcRec) : Node :=
  { id := srcKey r, name := srcName r, tables := some (srcCnt r),
    ntype := NodeType.source, dataPlatform := some (srcGroupKey r),
    isMixed := false, sym := SymSpec.scaled (srcCnt r),
    color := lookupColor cm (srcGroupKey r) ("#91cc75") }

def mkMainDsNode (cm : List (String × String)) (r : DsRec) : Node :=
  { id := dsKey r, name := dsName r, tables := some (dsCnt r),
    ntype := NodeType.downstream, dataPlatform := some (dsGroupKey r),
    isMixed := false, sym := SymSpec.scaled (dsCnt r),
    color := lookupColor cm (dsGroupKey r) ("#ee6666") }

/- The entity to platform link pushed for every source row. -/
def mainSrcLinkOf (r : SrcRec) : Link :=
  { source := srcKey r, target := srcGroupKey r, value := srcCnt r, ltype := LineType.solid }

def mainDsLinkOf (r : DsRec) : Link :=
  { source := dsGroupKey r, target := dsKey r, value := dsCnt r, ltype := LineType.solid }

/- One source row of getMainGraphData: update or create the node (created
   only when the platform key resolves to a registered region node), then
   push the entity to platform link unconditionally. -/
def mainSrcStep (cm : List (String × String)) (platIds : List String)
    (st : List Node × List Link) (r : SrcRec) : List Node × List Link :=
  (genSrcNodes (mkMainSrcNode cm) (fun r2 => platIds.contains (srcGroupKey r2)) st.1 r,
   st.2 ++ [mainSrcLinkOf r])

/- One downstream row of getMainGraphData; the mixed color here is the
   literal purple, not a colorMap lookup. -/
def mainDsStep (cm : List (String × String)) (platIds : List String)
    (st : List Node × List Link) (r : DsRec) : List Node × List Link :=
  (genDsNodes (mkMainDsNode cm) (fun r2 => platIds.contains (dsGroupKey r2)) ("#AA46BC") st.1 r,
   st.2 ++ [mainDsLinkOf r])

/- Cross platform aggregation entries, keyed by the hyphen joined sorted
   platform pair; insertion order is preserved as in a JavaScript Map. -/
structure Conn where
  source : String
  target : String
  value : Int
deriving DecidableEq

/- Lexicographic string order by code unit, the default comparator of
   Array.prototype.sort, over the character lists so that it evaluates
   inside the kernel. -/
def charListLe : List Char → List Char → Bool
  | [], _ => true
  | _ :: _, [] => false
  | a :: as, b :: bs =>
    if a.toNat < b.toNat then true
    else if b.toNat < a.toNat then false
    else charListLe as bs

def strLe (a b : String) : Bool := charListLe a.data b.data

def pairKey (a b : String) : String :=
  if strLe a b then a ++ "-" ++ b else b ++ "-" ++ a

def connUpsert (sPlat tPlat : String) (m : List (String × Conn)) : List (String × Conn) :=
  let k := pairKey sPlat tPlat
  if m.any (fun p => p.1 == k) then
    m.map (fun p => if p.1 == k then (p.1, { p.2 with value := p.2.value + 1 }) else p)
  else m ++ [(k, { source := sPlat, target := tPlat, value := 1 })]

/- Shared shape of one inner iteration of the cross platform scan: when
   the names match and the platforms differ, bump the entry of the sorted
   platform pair. -/
def genConnStep (pa : SrcRec → String) (pb : DsRec → String) (hit : SrcRec → DsRec → Bool)
    (m : List (String × Conn)) (s : SrcRec) (d : DsRec) : List (String × Conn) :=
  if hit s d then connUpsert (pa s) (pb d) m else m

/- getMainGraphData matches on defaulted names and group keys. -/
def mainHitB (s : SrcRec) (d : DsRec) : Bool :=
  decide (srcName s = dsName d ∧ ¬ srcGroupKey s = dsGroupKey d)

def mainConnStep (m : List (String × Conn)) (s : SrcRec) (d : DsRec) : List (String × Conn) :=
  genConnStep srcGroupKey dsGroupKey mainHitB m s d

def mainConnList (src : List SrcRec) (ds : List DsRec) : List (String × Conn) :=
  (sortSrc src).foldl (fun m s => (sortDs ds).foldl (fun m2 d => mainConnStep m2 s d) m) []

/- getMainGraphData pushes every aggregated entry as a dashed link,
   without any threshold. -/
def mainCrossLinks (src : List SrcRec) (ds : List DsRec) : List Link :=
  (mainConnList src ds).map
    (fun p => { source := p.2.source, target := p.2.target, value := p.2.value, ltype := LineType.dashed })

def mainBuild (src : List SrcRec) (ds : List DsRec) (cm : List (String × String)) : Graph :=
  let platIds := mainPlatformOrder src ds
  let pNodes := platIds.map (mkPlatformNode cm)
  let st1 := (sortSrc src).foldl (mainSrcStep cm platIds) (pNodes, [])
  let st2 := (sortDs ds).foldl (mainDsStep cm platIds) st1
  { nodes := st2.1, links := st2.2 ++ mainCrossLinks src ds }

/- The order swapped variant stated by the commutativity claim: the same
   per record upserts, with the whole downstream pass run first. -/
def mainBuildDsFirst (src : List SrcRec) (ds : List DsRec) (cm : List (String × String)) : Graph :=
  let platIds := mainPlatformOrder src ds
  let pNodes := platIds.map (mkPlatformNode cm)
  let st1 := (sortDs ds).foldl (mainDsStep cm platIds) (pNodes, [])
  let st2 := (sortSrc src).foldl (mainSrcStep cm platIds) st1
  { nodes := st2.1, links := st2.2 ++ mainCrossLinks src ds }

/- getVennNetworkLayout groups the sorted rows by group key over a map
   preseeded with the discovered platform keys; rows whose group key is
   not a discovered key (the capital Unknown produced by an empty
   platform string) end up in a map entry that the platform iteration
   never visits, so they are dropped. -/
def vennGroupSrc (src : List SrcRec) (k : String) : List SrcRec :=
  (sortSrc src).filter (fun r => srcGroupKey r == k)

def vennGroupDs (ds : List DsRec) (k : String) : List DsRec :=
  (sortDs ds).filter (fun r => dsGroupKey r == k)

def mkVennSrcNode (cm : List (String × String)) (k : String) (r : SrcRec) : Node :=
  { id := srcKey r, name := srcName r, tables := some (srcCnt r),
    ntype := NodeType.source, dataPlatform := some k,
    isMixed := false, sym := SymSpec.scaled (srcCnt r),
    color := lookupColor cm ("source") ("#34A853") }

def mkVennDsNode (cm : List (String × String)) (k : String) (r : DsRec) : Node :=
  { id := dsKey r, name := dsName r, tables := some (dsCnt r),
    ntype := NodeType.downstream, dataPlatform := some k,
    isMixed := false, sym := SymSpec.scaled (dsCnt r),
    color := lookupColor cm ("downstream") ("#EA4335") }

/- One source row of the Venn builder: an existing node only accumulates
   tables and produces no link; a new node comes with its link. -/
def vennSrcStep (cm : List (String × String)) (k : String)
    (st : List Node × List Link) (r : SrcRec) : List Node × List Link :=
  (genSrcNodes (mkVennSrcNode cm k) (fun _ => true) st.1 r,
   if hasNode st.1 (srcKey r) then st.2
   else st.2 ++ [{ source := srcKey r, target := k, value := srcCnt r, ltype := LineType.solid }])

def vennDsStep (cm : List (String × String)) (k : String)
    (st : List Node × List Link) (r : DsRec) : List Node × List Link :=
  (genDsNodes (mkVennDsNode cm k) (fun _ => true) (lookupColor cm ("mixed") ("#AA46BC")) st.1 r,
   if hasNode st.1 (dsKey r) then st.2
   else st.2 ++ [{ source := k, target := dsKey r, value := dsCnt r, ltype := LineType.solid }])

def vennSrcPhase (cm : List (String × String)) (src : List SrcRec)
    (ks : List String) (st : List Node × List Link) : List Node × List Link :=
  ks.foldl (fun st2 k => (vennGroupSrc src k).foldl (vennSrcStep cm k) st2) st

def vennDsPhase (cm : List (String × String)) (ds : List DsRec)
    (ks : List String) (st : List Node × List Link) : List Node × List Link :=
  ks.foldl (fun st2 k => (vennGroupDs ds k).foldl (vennDsStep cm k) st2) st

/- The cross platform scan of the Venn builder reads data_platform with
   no default (the missing case has already thrown, see vennBuild) and
   matches the raw, undefaulted application name fields. -/
def vennRawPlat (o : Option String) : String := jsToLower (o.getD (""))

def vennSPlat (s : SrcRec) : String := vennRawPlat s.data_platform

def vennDPlat (d : DsRec) : String := vennRawPlat d.data_platform

def vennHitB (s : SrcRec) (d : DsRec) : Bool :=
  decide (s.source_application_name = d.downstream_application_name ∧ ¬ vennSPlat s = vennDPlat d)

def vennConnStep (m : List (String × Conn)) (s : SrcRec) (d : DsRec) : List (String × Conn) :=
  genConnStep vennSPlat vennDPlat vennHitB m s d

def vennConnList (src : List SrcRec) (ds : List DsRec) : List (String × Conn) :=
  src.foldl (fun m s => ds.foldl (fun m2 d => vennConnStep m2 s d) m) []

/- Only entries above the materiality threshold become dashed links. -/
def vennCrossLinks (src : List SrcRec) (ds : List DsRec) : List Link :=
  ((vennConnList src ds).filter (fun p => 3 < p.2.value)).map
    (fun p => { source := p.2.source, target := p.2.target, value := p.2.value, ltype := LineType.dashed })

def vennBuildCore (src : List SrcRec) (ds : List DsRec) (cm : List (String × String)) : Graph :=
  let ks := vennPlatformOrder src ds
  let pNodes := ks.map (mkPlatformNode cm)
  let st1 := vennSrcPhase cm src ks (pNodes, [])
  let st2 := vennDsPhase cm ds ks st1
  { nodes := st2.1, links := st2.2 ++ vennCrossLinks src ds }

/- getVennNetworkLayout reads entity.data_platform.toLowerCase() with no
   guard while counting platform connections, so a record with an absent
   platform field makes the whole build throw a TypeError; the thrown
   outcome is none. -/
def vennBuild (src : List SrcRec) (ds : List DsRec) (cm : List (String × String)) : Option Graph :=
  if src.any (fun r => r.data_platform.isNone) || ds.any (fun r => r.data_platform.isNone) then
    none
  else some (vennBuildCore src ds cm)

/- Lookup of the unique node with a given id, and its weight. -/
def findN (ns : List Node) (k : String) : Option Node := ns.find? (fun n => n.id == k)

def nodeTables (g : Graph) (k : String) : Option (Option Int) := (findN g.nodes k).map Node.tables

/- Total table count contributed by the records of a list that share one
   canonical key. -/
def sumSrcCnt (l : List SrcRec) (k : String) : Int :=
  ((l.filter (fun r => srcKey r == k)).map srcCnt).sum

def sumDsCnt (l : List DsRec) (k : String) : Int :=
  ((l.filter (fun r => dsKey r == k)).map dsCnt).sum

/- The sequence of source, downstream record pairs visited by the nested
   cross platform scan. -/
def pairList (src : List SrcRec) (ds : List DsRec) : List (SrcRec × DsRec) :=
  src.flatMap (fun s => ds.map (fun d => (s, d)))

def connLookup (m : List (String × Conn)) (k : String) : Option (String × Conn) :=
  m.find? (fun p => p.1 == k)

/- The aggregated bridging count for one platform pair key: how many
   record pairs hit, and are keyed to, that sorted pair. -/
def countHit (pa : SrcRec → String) (pb : DsRec → String) (hit : SrcRec → DsRec → Bool)
    (l : List (SrcRec × DsRec)) (k : String) : Nat :=
  l.countP (fun p => hit p.1 p.2 && (pairKey (pa p.1) (pb p.2) == k))

/- The orientation recorded for a key is the one of the first hitting pair. -/
def firstHit (pa : SrcRec → String) (pb : DsRec → String) (hit : SrcRec → DsRec → Bool)
    (l : List (SrcRec × DsRec)) (k : String) : Option (String × String) :=
  (l.find? (fun p => hit p.1 p.2 && (pairKey (pa p.1) (pb p.2) == k))).map
    (fun p => (pa p.1, pb p.2))

def vennBridgeCount (src : List SrcRec) (ds : List DsRec) (k : String) : Nat :=
  countHit vennSPlat vennDPlat vennHitB (pairList src ds) k

def mainBridgeCount (src : List SrcRec) (ds : List DsRec) (k : String) : Nat :=
  countHit srcGroupKey dsGroupKey mainHitB (pairList src ds) k

/- The source rows the Venn builder actually visits: the per platform
   groups, concatenated in platform order. -/
def vennSrcSeq (src : List SrcRec) (ks : List String) : List SrcRec :=
  (ks.map (fun k => vennGroupSrc src k)).flatten

def vennDsSeq (ds : List DsRec) (ks : List String) : List DsRec :=
  (ks.map (fun k => vennGroupDs ds k)).flatten

/- Highlight overlay of getChartOptions.  Styled graphs carry the fields
   the overlay reads and writes; numeric style values are rationals. -/
structure HNode where
  id : String
  borderWidth : ℚ
  borderColor : String
  opacity : ℚ
deriving DecidableEq

structure HLink where
  source : String
  target : String
  lopacity : Option ℚ
  lwidth : ℚ
deriving DecidableEq

structure HGraph where
  nodes : List HNode
  links : List HLink
deriving DecidableEq

/- JavaScript truthiness of the hoveredNode argument. -/
def isTruthyId : Option String → Bool
  | none => false
  | some s => s != ""

/- link.lineStyle.opacity || d; an opacity of 0 also falls back. -/
def qOr (o : Option ℚ) (d : ℚ) : ℚ :=
  match o with
  | none => d
  | some q => if q = 0 then d else q

def linkTouches (h : String) (l : HLink) : Bool := l.source == h || l.target == h

def adjacentTo (links : List HLink) (h : String) (nid : String) : Bool :=
  links.any (fun l => (l.source == h && l.target == nid) || (l.target == h && l.source == nid))

def highlightNode (links : List HLink) (hov : Option String) (n : HNode) : HNode :=
  { n with
    borderWidth := if hov = some n.id then 3 else 1,
    borderColor := if hov = some n.id then ("#FFD700") else ("rgba(255, 255, 255, 0.5)"),
    opacity :=
      match hov with
      | none => 1
      | some h => if h = "" then 1 else (if h == n.id || adjacentTo links h n.id then 1 else 3/10) }

def highlightLink (hov : Option String) (l : HLink) : HLink :=
  { l with
    lopacity :=
      some (match hov with
        | none => qOr l.lopacity (1/2)
        | some h => if h = "" then qOr l.lopacity (1/2) else (if linkTouches h l then 4/5 else 1/10)),
    lwidth :=
      match hov with
      | none => l.lwidth
      | some h => if h = "" then l.lwidth else (if linkTouches h l then l.lwidth * (3/2) else l.lwidth) }

/- The processedNodes and processedLinks computation of getChartOptions,
   the setHighlight interface of the spec. -/
def setHighlight (g : HGraph) (hov : Option String) : HGraph :=
  { nodes := g.nodes.map (highlightNode g.links hov),
    links := g.links.map (highlightLink hov) }

/- calculateSymbolSize over the reals. -/
noncomputable def calculateSymbolSize (value : ℝ) : ℝ :=
  if value ≤ 0 then 20 else min 100 (max 20 (Real.log value * 8))

/- Evaluation of the symbolSize expression recorded on a node. -/
noncomputable def evalSymSpec : SymSpec → ℝ
  | SymSpec.fixed n => (n : ℝ)
  | SymSpec.scaled t => calculateSymbolSize (t : ℝ)

/- Venn source placement: layer, slots per layer, slot in layer, angle.
   The angle takes the Math.random() draw u as an argument. -/
def vennSrcLayerIndex (i : Nat) : Nat := i % 8

def vennSrcSlots (layer : Nat) : Nat := 5 + layer * 3

def vennSrcSlotIndex (i : Nat) : Nat := (i / 8) % vennSrcSlots (vennSrcLayerIndex i)

def vennSrcAngle (startA endA u : ℚ) (i : Nat) : ℚ :=
  startA + ((vennSrcSlotIndex i : ℚ) / (vennSrcSlots (vennSrcLayerIndex i) : ℚ)) * (endA - startA)
    + (u - 1/2) * (5/100)

/- Venn downstream placement. -/
def vennDsLayerIndex (i : Nat) : Nat := i % 9

def vennDsSlots (layer : Nat) : Nat := 7 + layer * 4

def vennDsSlotIndex (i : Nat) : Nat := (i / 9) % vennDsSlots (vennDsLayerIndex i)

def vennDsAngle (startA endA u : ℚ) (i : Nat) : ℚ :=
  startA + ((vennDsSlotIndex i : ℚ) / (vennDsSlots (vennDsLayerIndex i) : ℚ)) * (endA - startA)
    + (u - 1/2) * (5/100)

/- The unperturbed angle as the specification words it, layer i mod 8,
   layer L holding 5 + 3L slots, slot floor(i / 8) mod slots. -/
def specSrcAngle (startA endA : ℚ) (i : Nat) : ℚ :=
  startA + ((((i / 8) % (5 + 3 * (i % 8)) : Nat) : ℚ) / (((5 + 3 * (i % 8) : Nat)) : ℚ)) * (endA - startA)

def specDsAngle (startA endA : ℚ) (i : Nat) : ℚ :=
  startA + ((((i / 9) % (7 + 4 * (i % 9)) : Nat) : ℚ) / (((7 + 4 * (i % 9) : Nat)) : ℚ)) * (endA - startA)

/- Concrete inputs used by the closed theorems. -/
def cm0 : List (String × String) := []

def c1src : List SrcRec := [⟨some ("p"), some ("a"), some 1⟩]

def c1ds : List DsRec := [⟨some ("p"), some ("a"), some 2⟩]

def c2src : List SrcRec := [⟨some ("p"), some ("a"), none⟩]

def c2ds : List DsRec := [⟨some ("q"), some ("a"), none⟩]

def blankSrc : SrcRec := ⟨none, none, none⟩

def crmSrc : List SrcRec :=
  [⟨some ("data lake"), some ("CRM"), some 10⟩, ⟨some ("data lake"), some ("CRM"), some 5⟩]

def c5src : List SrcRec := [⟨some ("p1"), some ("svc"), none⟩]

def c5ds : List DsRec := [⟨some ("p2"), some ("svc"), none⟩]

def c6src : List SrcRec :=
  [⟨some ("data mesh"), some ("a"), none⟩, ⟨some ("data warehouse"), some ("b"), none⟩]

def c8graph : HGraph :=
  { nodes := [⟨"a", 1, "x", 1⟩, ⟨"b", 1, "x", 1⟩],
    links := [⟨"a", "b", some (1/2), 2⟩] }

def c10src : List SrcRec := [⟨none, some ("a"), some 1⟩]

/- Helper lemmas about the shared downstream upsert. -/

lemma promoteMixed_dataPlatform (col : String) (c : Int) (n : Node) :
    (promoteMixed col c n).dataPlatform = n.dataPlatform := by
  simp only [promoteMixed]
  split <;> rfl

lemma promoteMixed_id (col : String) (c : Int) (n : Node) :
    (promoteMixed col c n).id = n.id := by
  simp only [promoteMixed]
  split <;> rfl

lemma promoteMixed_tables (col : String) (c : Int) (n : Node) :
    (promoteMixed col c n).tables = addTables n.tables c := by
  simp only [promoteMixed]
  split <;> rfl

lemma promoteMixed_sym (col : String) (c : Int) (n : Node) :
    (promoteMixed col c n).sym = n.sym := by
  simp only [promoteMixed]
  split <;> rfl

lemma promoteMixed_source (col : String) (c : Int) (n : Node)
    (h : n.ntype = NodeType.source) :
    (promoteMixed col c n).ntype = NodeType.mixed ∧ (promoteMixed col c n).color = col := by
  simp [promoteMixed, h]

lemma promoteMixed_ntype (col : String) (c : Int) (n : Node) :
    (promoteMixed col c n).ntype
      = if n.ntype = NodeType.source then NodeType.mixed else n.ntype := by
  simp only [promoteMixed]
  split <;> simp_all

/-- C1 counterexample: on the single record lists c1src and c1ds the
    entity a ends with type Mixed under the source first order that the
    code uses, but with type Downstream when the downstream upserts are
    processed first, so reversing the merge order changes the final type
    of a node, refuting the claimed commutativity. -/
theorem C1_counterexample :
    ((mainBuild c1src c1ds cm0).nodes.find? (fun n => n.id == "a")).map Node.ntype
        = some NodeType.mixed ∧
    ((mainBuildDsFirst c1src c1ds cm0).nodes.find? (fun n => n.id == "a")).map Node.ntype
        = some NodeType.downstream ∧
    ¬ ((mainBuildDsFirst c1src c1ds cm0).nodes.find? (fun n => n.id == "a")).map Node.ntype
        = ((mainBuild c1src c1ds cm0).nodes.find? (fun n => n.id == "a")).map Node.ntype := by
  decide

/-- C2 counterexample: one matching record pair bridging platforms p and q
    gives an aggregated count of 1, yet getMainGraphData still emits the
    dashed platform to platform link, so a pair with count at most 3 does
    appear as a link. -/
theorem C2_counterexample :
    ({ source := "p", target := "q", value := 1, ltype := LineType.dashed } : Link)
        ∈ (mainBuild c2src c2ds cm0).links ∧ (1 : Int) ≤ 3 := by
  decide

/-- C3: a source record with an absent data_platform field makes
    getVennNetworkLayout throw a TypeError at the unguarded
    entity.data_platform.toLowerCase() of the connection count loop
    (modelled as none), even though the same input is handled with
    defaults by getMainGraphData, so graph construction does not complete
    for every malformed input as the claim states. -/
theorem C3_theorem :
    vennBuild [blankSrc] [] cm0 = none ∧
    ¬ (mainBuild [blankSrc] [] cm0).nodes = [] := by
  decide

/-- C4 counterexample: the two CRM records on platform data lake produce,
    in getVennNetworkLayout, a single crm node of weight 15 but only ONE
    entity to platform link (carrying 10), because the Venn builder skips
    the link when the node already exists; the claim demands one link per
    record for both builders. -/
theorem C4_counterexample :
    vennBuild crmSrc [] cm0 = some (vennBuildCore crmSrc [] cm0) ∧
    (vennBuildCore crmSrc [] cm0).links
        = [{ source := "crm", target := "data lake", value := 10, ltype := LineType.solid }] ∧
    (∃ n ∈ (vennBuildCore crmSrc [] cm0).nodes,
        n.id = "crm" ∧ n.ntype = NodeType.source ∧ n.tables = some 15) := by
  decide

/-- C5: the downstream upsert on an existing source node promotes it to
    Mixed with the mixed color while never touching the dataPlatform
    field, and on the svc example the Venn build yields one Mixed node
    svc with platform p1 and exactly one bridging increment for the
    sorted pair p1, p2. -/
theorem C5_theorem :
    (∀ (col : String) (c : Int) (n : Node),
        (promoteMixed col c n).dataPlatform = n.dataPlatform) ∧
    (∀ (col : String) (c : Int) (n : Node), n.ntype = NodeType.source →
        (promoteMixed col c n).ntype = NodeType.mixed ∧ (promoteMixed col c n).color = col) ∧
    vennBuild c5src c5ds cm0 = some (vennBuildCore c5src c5ds cm0) ∧
    (∃ n ∈ (vennBuildCore c5src c5ds cm0).nodes,
        n.id = "svc" ∧ n.ntype = NodeType.mixed ∧ n.dataPlatform = some ("p1")) ∧
    vennConnList c5src c5ds
        = [(pairKey ("p1") ("p2"), { source := "p1", target := "p2", value := 1 })] := by
  exact ⟨promoteMixed_dataPlatform, fun col c n h => promoteMixed_source col c n h,
    by decide, by decide, by decide⟩

theorem C5_witness :
    (promoteMixed ("#AA46BC") 2 (mkVennSrcNode cm0 ("p1") ⟨some ("p1"), some ("svc"), none⟩)).ntype
        = NodeType.mixed ∧
    (promoteMixed ("#AA46BC") 2 (mkVennSrcNode cm0 ("p1") ⟨some ("p1"), some ("svc"), none⟩)).color
        = "#AA46BC" :=
  C5_theorem.2.1 ("#AA46BC") 2
    (mkVennSrcNode cm0 ("p1") ⟨some ("p1"), some ("svc"), none⟩) (by decide)

/-- C6 counterexample: with a mesh platform discovered before a warehouse
    platform, getMainGraphData keeps the discovery order for its platform
    ring (mesh first, rank 5 before rank 1), so the Traditional layout
    does not sort platforms by the category rank as the claim states. -/
theorem C6_counterexample :
    mainPlatformOrder c6src [] = ["data mesh", "data warehouse"] ∧
    (mainBuild c6src [] cm0).nodes.map Node.id = ["data mesh", "data warehouse", "a", "b"] ∧
    ¬ List.Pairwise (fun a b => getTypeValue a ≤ getTypeValue b) (mainPlatformOrder c6src []) := by
  decide

/-- C8 counterexample: applying the highlight computation twice with the
    same hovered id multiplies the width of a touched link by 1.5 each
    time (2 becomes 3 becomes 4.5), so highlight recomputation is not
    idempotent. -/
theorem C8_counterexample :
    (setHighlight (setHighlight c8graph (some ("a"))) (some ("a"))).links.map HLink.lwidth
        = [9/2] ∧
    (setHighlight c8graph (some ("a"))).links.map HLink.lwidth = [3] ∧
    ¬ setHighlight (setHighlight c8graph (some ("a"))) (some ("a"))
        = setHighlight c8graph (some ("a")) := by
  have h1 : (("a" : String) = "") = False := by simp
  have e1 : (setHighlight (setHighlight c8graph (some ("a"))) (some ("a"))).links.map HLink.lwidth
      = [9/2] := by
    simp [setHighlight, highlightLink, c8graph, linkTouches, qOr, h1]
    norm_num
  have e2 : (setHighlight c8graph (some ("a"))).links.map HLink.lwidth = [3] := by
    simp [setHighlight, highlightLink, c8graph, linkTouches, qOr, h1]
    norm_num
  refine ⟨e1, e2, ?_⟩
  intro h
  rw [h, e2] at e1
  have h32 : (3 : ℚ) = 9 / 2 := by injection e1
  norm_num at h32

/-- C9: in the Venn layout a source entity with index i sits in layer
    i mod 8 whose layer L holds 5 + 3L slots, at slot floor(i / 8) mod
    slots, a downstream entity in layer i mod 9 with 7 + 4L slots at slot
    floor(i / 9) mod slots, and the emitted angle differs from
    sectorStart + slot / slots times the sector width by the random
    perturbation, which is bounded by 0.025 radians in absolute value. -/
theorem C9_theorem (startA endA u : ℚ) (i : Nat) (h0 : 0 ≤ u) (h1 : u < 1) :
    vennSrcLayerIndex i = i % 8 ∧
    vennSrcSlots (vennSrcLayerIndex i) = 5 + 3 * (i % 8) ∧
    vennSrcSlotIndex i = (i / 8) % (5 + 3 * (i % 8)) ∧
    |vennSrcAngle startA endA u i - specSrcAngle startA endA i| ≤ 1/40 ∧
    vennDsLayerIndex i = i % 9 ∧
    vennDsSlots (vennDsLayerIndex i) = 7 + 4 * (i % 9) ∧
    vennDsSlotIndex i = (i / 9) % (7 + 4 * (i % 9)) ∧
    |vennDsAngle startA endA u i - specDsAngle startA endA i| ≤ 1/40 := by
  have hr : |(u - 1/2) * (5/100)| ≤ 1/40 := by
    rw [abs_mul]
    have h5 : |(5/100 : ℚ)| = 5/100 := by norm_num
    have hu : |u - 1/2| ≤ 1/2 := abs_le.mpr ⟨by linarith, by linarith⟩
    rw [h5]
    nlinarith [abs_nonneg (u - 1/2)]
  have eS : vennSrcSlots (vennSrcLayerIndex i) = 5 + 3 * (i % 8) := by
    simp [vennSrcSlots, vennSrcLayerIndex, Nat.mul_comm]
  have eI : vennSrcSlotIndex i = (i / 8) % (5 + 3 * (i % 8)) := by
    simp [vennSrcSlotIndex, vennSrcSlots, vennSrcLayerIndex, Nat.mul_comm]
  have eSd : vennDsSlots (vennDsLayerIndex i) = 7 + 4 * (i % 9) := by
    simp [vennDsSlots, vennDsLayerIndex, Nat.mul_comm]
  have eId : vennDsSlotIndex i = (i / 9) % (7 + 4 * (i % 9)) := by
    simp [vennDsSlotIndex, vennDsSlots, vennDsLayerIndex, Nat.mul_comm]
  have eangle : vennSrcAngle startA endA u i
      = specSrcAngle startA endA i + (u - 1/2) * (5/100) := by
    unfold vennSrcAngle specSrcAngle
    rw [eI, eS]
  have eangled : vennDsAngle startA endA u i
      = specDsAngle startA endA i + (u - 1/2) * (5/100) := by
    unfold vennDsAngle specDsAngle
    rw [eId, eSd]
  refine ⟨rfl, eS, eI, ?_, rfl, eSd, eId, ?_⟩
  · rw [eangle, add_sub_cancel_left]
    exact hr
  · rw [eangled, add_sub_cancel_left]
    exact hr

theorem C9_witness :
    vennSrcLayerIndex 13 = 13 % 8 ∧
    vennSrcSlots (vennSrcLayerIndex 13) = 5 + 3 * (13 % 8) ∧
    vennSrcSlotIndex 13 = (13 / 8) % (5 + 3 * (13 % 8)) ∧
    |vennSrcAngle 0 1 (1/4) 13 - specSrcAngle 0 1 13| ≤ 1/40 ∧
    vennDsLayerIndex 13 = 13 % 9 ∧
    vennDsSlots (vennDsLayerIndex 13) = 7 + 4 * (13 % 9) ∧
    vennDsSlotIndex 13 = (13 / 9) % (7 + 4 * (13 % 9)) ∧
    |vennDsAngle 0 1 (1/4) 13 - specDsAngle 0 1 13| ≤ 1/40 :=
  C9_theorem 0 1 (1/4) 13 (by norm_num) (by norm_num)

/-- C10: on a record whose data_platform is absent, getMainGraphData
    groups the row under the capitalized key Unknown while the platform
    node registry only holds the lower cased key unknown, so the emitted
    entity to platform link has two endpoints that match no node at all. -/
theorem C10_theorem :
    ∃ l ∈ (mainBuild c10src [] cm0).links,
      (∀ n ∈ (mainBuild c10src [] cm0).nodes, ¬ n.id = l.source) ∧
      (∀ n ∈ (mainBuild c10src [] cm0).nodes, ¬ n.id = l.target) := by
  decide

/- Insertion sort lemmas. -/

lemma mem_insertLeB {α : Type} (le : α → α → Bool) (x a : α) (l : List α) :
    a ∈ insertLeB le x l ↔ a = x ∨ a ∈ l := by
  induction l with
  | nil => simp [insertLeB]
  | cons y ys ih =>
    simp only [insertLeB]
    split
    · simp only [List.mem_cons, ih]
      tauto
    · simp only [List.mem_cons]

lemma pairwise_insertLeB {α : Type} (key : α → Nat) (x : α) (l : List α)
    (h : List.Pairwise (fun a b => key a ≤ key b) l) :
    List.Pairwise (fun a b => key a ≤ key b)
      (insertLeB (fun a b => decide (key a ≤ key b)) x l) := by
  induction l with
  | nil => simp [insertLeB]
  | cons y ys ih =>
    rcases List.pairwise_cons.mp h with ⟨hy, hys⟩
    simp only [insertLeB]
    split
    case isTrue hle =>
      refine List.pairwise_cons.mpr ⟨?_, ih hys⟩
      intro a ha
      rcases (mem_insertLeB _ _ _ _).mp ha with rfl | ha2
      · exact of_decide_eq_true hle
      · exact hy a ha2
    case isFalse hgt =>
      have hxy : key x ≤ key y := by
        by_contra hc
        exact hgt (decide_eq_true (Nat.le_of_not_le hc))
      refine List.pairwise_cons.mpr ⟨?_, h⟩
      intro a ha
      rcases List.mem_cons.mp ha with rfl | ha2
      · exact hxy
      · exact le_trans hxy (hy a ha2)

lemma pairwise_stableSortBy {α : Type} (key : α → Nat) (l : List α) :
    List.Pairwise (fun a b => key a ≤ key b)
      (stableSortBy (fun a b => decide (key a ≤ key b)) l) := by
  suffices h : ∀ (l2 : List α) (acc : List α),
      List.Pairwise (fun a b => key a ≤ key b) acc →
      List.Pairwise (fun a b => key a ≤ key b)
        (l2.foldl (fun acc2 x => insertLeB (fun a b => decide (key a ≤ key b)) x acc2) acc) by
    exact h l [] (by simp)
  intro l2
  induction l2 with
  | nil => intro acc hacc; simpa using hacc
  | cons x xs ih =>
    intro acc hacc
    exact ih _ (pairwise_insertLeB key x acc hacc)

lemma mem_stableSortBy {α : Type} (le : α → α → Bool) (a : α) (l : List α) :
    a ∈ stableSortBy le l ↔ a ∈ l := by
  suffices h : ∀ (l2 acc : List α),
      (a ∈ l2.foldl (fun acc2 x => insertLeB le x acc2) acc ↔ a ∈ acc ∨ a ∈ l2) by
    have := h l []
    simpa [stableSortBy] using this
  intro l2
  induction l2 with
  | nil => intro acc; simp
  | cons x xs ih =>
    intro acc
    rw [List.foldl_cons, ih, mem_insertLeB]
    simp only [List.mem_cons]
    tauto

/- Node id bookkeeping through the registry folds. -/

lemma updateFirst_map_id (f : Node → Node) (k : String) (ns : List Node)
    (hf : ∀ n, (f n).id = n.id) :
    (updateFirst f k ns).map Node.id = ns.map Node.id := by
  induction ns with
  | nil => rfl
  | cons n ns2 ih =>
    unfold updateFirst
    split
    · simp [hf]
    · simp [ih]

lemma foldl_ids_extend {β : Type} (step : (List Node × List Link) → β → (List Node × List Link))
    (hstep : ∀ st b, ∃ tl, ((step st b).1).map Node.id = st.1.map Node.id ++ tl)
    (l : List β) :
    ∀ st : List Node × List Link,
      ∃ tl, ((l.foldl step st).1).map Node.id = st.1.map Node.id ++ tl := by
  induction l with
  | nil => exact fun st => ⟨[], by simp⟩
  | cons b bs ih =>
    intro st
    obtain ⟨t1, h1⟩ := hstep st b
    obtain ⟨t2, h2⟩ := ih (step st b)
    exact ⟨t1 ++ t2, by rw [List.foldl_cons, h2, h1, List.append_assoc]⟩

lemma vennSrcStep_ids (cm : List (String × String)) (k : String)
    (st : List Node × List Link) (r : SrcRec) :
    ∃ tl, ((vennSrcStep cm k st r).1).map Node.id = st.1.map Node.id ++ tl := by
  show ∃ tl, (genSrcNodes (mkVennSrcNode cm k) (fun _ => true) st.1 r).map Node.id
      = st.1.map Node.id ++ tl
  unfold genSrcNodes
  split
  · refine ⟨[], ?_⟩
    rw [List.append_nil]
    exact updateFirst_map_id _ _ _ (fun n => rfl)
  · exact ⟨[(mkVennSrcNode cm k r).id], by simp⟩

lemma vennDsStep_ids (cm : List (String × String)) (k : String)
    (st : List Node × List Link) (r : DsRec) :
    ∃ tl, ((vennDsStep cm k st r).1).map Node.id = st.1.map Node.id ++ tl := by
  show ∃ tl, (genDsNodes (mkVennDsNode cm k) (fun _ => true)
      (lookupColor cm ("mixed") ("#AA46BC")) st.1 r).map Node.id = st.1.map Node.id ++ tl
  unfold genDsNodes
  split
  · refine ⟨[], ?_⟩
    rw [List.append_nil]
    exact updateFirst_map_id _ _ _ (promoteMixed_id _ _)
  · exact ⟨[(mkVennDsNode cm k r).id], by simp⟩

lemma vennSrcPhase_ids (cm : List (String × String)) (src : List SrcRec) (ks : List String)
    (st : List Node × List Link) :
    ∃ tl, ((vennSrcPhase cm src ks st).1).map Node.id = st.1.map Node.id ++ tl :=
  foldl_ids_extend _
    (fun st2 k => foldl_ids_extend _ (vennSrcStep_ids cm k) (vennGroupSrc src k) st2) ks st

lemma vennDsPhase_ids (cm : List (String × String)) (ds : List DsRec) (ks : List String)
    (st : List Node × List Link) :
    ∃ tl, ((vennDsPhase cm ds ks st).1).map Node.id = st.1.map Node.id ++ tl :=
  foldl_ids_extend _
    (fun st2 k => foldl_ids_extend _ (vennDsStep_ids cm k) (vennGroupDs ds k) st2) ks st

/-- C6 amended: only the Venn layout sorts the discovered platforms by
    the fixed category rank (warehouse, lake, stream, big data, mesh,
    other) before assigning ring positions: its platform order is always
    sorted by rank (so same category platforms are adjacent) and contains
    exactly the discovered platform keys, and the Venn graph starts with
    the platform nodes laid out in exactly that order.  The Traditional
    builder getMainGraphData keeps the raw discovery order instead (see
    the counterexample). -/
theorem C6_amended (src : List SrcRec) (ds : List DsRec) (cm : List (String × String)) :
    List.Pairwise (fun a b => getTypeValue a ≤ getTypeValue b) (vennPlatformOrder src ds) ∧
    (∀ k, k ∈ vennPlatformOrder src ds ↔ k ∈ discoveredPlatforms src ds) ∧
    ((vennBuildCore src ds cm).nodes.map Node.id).take (vennPlatformOrder src ds).length
        = vennPlatformOrder src ds := by
  refine ⟨pairwise_stableSortBy getTypeValue _,
    fun k => mem_stableSortBy _ k _, ?_⟩
  obtain ⟨t1, h1⟩ := vennSrcPhase_ids cm src (vennPlatformOrder src ds)
    ((vennPlatformOrder src ds).map (mkPlatformNode cm), [])
  obtain ⟨t2, h2⟩ := vennDsPhase_ids cm ds (vennPlatformOrder src ds)
    (vennSrcPhase cm src (vennPlatformOrder src ds)
      ((vennPlatformOrder src ds).map (mkPlatformNode cm), []))
  have hp : ((vennPlatformOrder src ds).map (mkPlatformNode cm)).map Node.id
      = vennPlatformOrder src ds := by
    rw [List.map_map]
    exact List.map_id _
  show ((vennDsPhase cm ds (vennPlatformOrder src ds)
      (vennSrcPhase cm src (vennPlatformOrder src ds)
        ((vennPlatformOrder src ds).map (mkPlatformNode cm), []))).1.map Node.id).take
      (vennPlatformOrder src ds).length = vennPlatformOrder src ds
  rw [h2, h1, hp, List.append_assoc]
  exact List.take_left _ _

/- Highlight overlay lemmas. -/

lemma qOr_half (o : Option ℚ) : qOr (some (qOr o (1/2))) (1/2) = qOr o (1/2) := by
  cases o with
  | none => norm_num [qOr]
  | some q =>
    by_cases hq : q = 0
    · norm_num [qOr, hq]
    · simp [qOr, hq]

lemma linkTouches_highlightLink (h : String) (hov : Option String) (l : HLink) :
    linkTouches h (highlightLink hov l) = linkTouches h l := rfl

lemma adjacentTo_map_highlightLink (hov : Option String) (links : List HLink) (h nid : String) :
    adjacentTo (links.map (highlightLink hov)) h nid = adjacentTo links h nid := by
  unfold adjacentTo
  rw [List.any_map]
  rfl

lemma highlightNode_id (links : List HLink) (hov : Option String) (n : HNode) :
    (highlightNode links hov n).id = n.id := rfl

lemma highlightNode_ext (links : List HLink) (hov : Option String) (m n : HNode)
    (h : m.id = n.id) : highlightNode links hov m = highlightNode links hov n := by
  unfold highlightNode
  rw [h]

lemma highlightNode_map_links (links : List HLink) (hov hov2 : Option String) (n : HNode) :
    highlightNode (links.map (highlightLink hov2)) hov n = highlightNode links hov n := by
  unfold highlightNode
  cases hov with
  | none => rfl
  | some h => simp [adjacentTo_map_highlightLink]

lemma highlightLink_twice (hov : Option String) (l : HLink) :
    highlightLink hov (highlightLink hov l)
      = { highlightLink hov l with lwidth :=
          match hov with
          | none => (highlightLink hov l).lwidth
          | some h =>
            if h = "" then (highlightLink hov l).lwidth
            else if linkTouches h (highlightLink hov l) then
              (highlightLink hov l).lwidth * (3/2)
            else (highlightLink hov l).lwidth } := by
  obtain ⟨s, t, o, w⟩ := l
  cases hov with
  | none =>
    simp only [highlightLink]
    rw [qOr_half]
  | some h =>
    by_cases hh : h = ""
    · simp only [highlightLink, linkTouches, hh, if_pos]
      rw [qOr_half]
    · by_cases hst : (s == h || t == h) = true
      · simp only [highlightLink, linkTouches, if_neg hh, hst, if_pos]
      · simp only [highlightLink, linkTouches, if_neg hh, if_neg (hst ∘ of_eq_true ∘ eq_true)]

lemma highlightLink_none_idem (l : HLink) :
    highlightLink none (highlightLink none l) = highlightLink none l := by
  obtain ⟨s, t, o, w⟩ := l
  simp only [highlightLink]
  rw [qOr_half]

/-- C8 amended: re-applying the highlight computation with the same
    hovered id reproduces all node styles and all link opacities, but
    multiplies the width of every link touching a truthy hovered id by
    1.5 again, so full idempotence fails only for those link widths (see
    the counterexample); with no hovered id every node gets full opacity,
    every link gets its stored baseline opacity (0.5 when unset or zero),
    and the no-highlight application is idempotent. -/
theorem C8_amended (g : HGraph) (hov : Option String) :
    (setHighlight (setHighlight g hov) hov).nodes = (setHighlight g hov).nodes ∧
    (setHighlight (setHighlight g hov) hov).links.map HLink.lopacity
        = (setHighlight g hov).links.map HLink.lopacity ∧
    (setHighlight (setHighlight g hov) hov).links
        = (setHighlight g hov).links.map (fun l =>
            { l with lwidth :=
                match hov with
                | none => l.lwidth
                | some h =>
                  if h = "" then l.lwidth
                  else if linkTouches h l then l.lwidth * (3/2) else l.lwidth }) ∧
    (setHighlight g none).nodes.map HNode.opacity = g.nodes.map (fun _ => (1 : ℚ)) ∧
    (setHighlight g none).links.map HLink.lopacity
        = g.links.map (fun l => some (qOr l.lopacity (1/2))) ∧
    setHighlight (setHighlight g none) none = setHighlight g none := by
  refine ⟨?_, ?_, ?_, ?_, ?_, ?_⟩
  · show (g.nodes.map (highlightNode g.links hov)).map
        (highlightNode (g.links.map (highlightLink hov)) hov)
      = g.nodes.map (highlightNode g.links hov)
    rw [List.map_map]
    refine List.map_congr_left ?_
    intro n _
    calc highlightNode (g.links.map (highlightLink hov)) hov (highlightNode g.links hov n)
        = highlightNode (g.links.map (highlightLink hov)) hov n :=
          highlightNode_ext _ _ _ _ (highlightNode_id _ _ _)
      _ = highlightNode g.links hov n := highlightNode_map_links _ _ _ _
  · show ((g.links.map (highlightLink hov)).map (highlightLink hov)).map HLink.lopacity
      = (g.links.map (highlightLink hov)).map HLink.lopacity
    rw [List.map_map, List.map_map, List.map_map]
    refine List.map_congr_left ?_
    intro l _
    show (highlightLink hov (highlightLink hov l)).lopacity = (highlightLink hov l).lopacity
    rw [highlightLink_twice]
  · show (g.links.map (highlightLink hov)).map (highlightLink hov)
      = (g.links.map (highlightLink hov)).map _
    rw [List.map_map, List.map_map]
    refine List.map_congr_left ?_
    intro l _
    show highlightLink hov (highlightLink hov l) = _
    rw [highlightLink_twice]
    rfl
  · show (g.nodes.map (highlightNode g.links none)).map HNode.opacity = _
    rw [List.map_map]
    rfl
  · show (g.links.map (highlightLink none)).map HLink.lopacity = _
    rw [List.map_map]
    rfl
  · show HGraph.mk ((g.nodes.map (highlightNode g.links none)).map
        (highlightNode (g.links.map (highlightLink none)) none))
        ((g.links.map (highlightLink none)).map (highlightLink none))
      = HGraph.mk (g.nodes.map (highlightNode g.links none))
        (g.links.map (highlightLink none))
    congr 1
    · rw [List.map_map]
      refine List.map_congr_left ?_
      intro n _
      calc highlightNode (g.links.map (highlightLink none)) none (highlightNode g.links none n)
          = highlightNode (g.links.map (highlightLink none)) none n :=
            highlightNode_ext _ _ _ _ (highlightNode_id _ _ _)
        _ = highlightNode g.links none n := highlightNode_map_links _ _ _ _
    · rw [List.map_map]
      refine List.map_congr_left ?_
      intro l _
      exact highlightLink_none_idem l

/- Node property preservation through the registry folds. -/

lemma mem_updateFirst (f : Node → Node) (k : String) (ns : List Node) (a : Node)
    (ha : a ∈ updateFirst f k ns) : a ∈ ns ∨ ∃ n ∈ ns, a = f n := by
  induction ns with
  | nil => simp [updateFirst] at ha
  | cons n ns2 ih =>
    revert ha
    unfold updateFirst
    split
    · intro ha
      rcases List.mem_cons.mp ha with rfl | h1
      · exact Or.inr ⟨n, List.mem_cons_self _ _, rfl⟩
      · exact Or.inl (List.mem_cons_of_mem _ h1)
    · intro ha
      rcases List.mem_cons.mp ha with rfl | h1
      · exact Or.inl (List.mem_cons_self _ _)
      · rcases ih h1 with h2 | ⟨m, hm, rfl⟩
        · exact Or.inl (List.mem_cons_of_mem _ h2)
        · exact Or.inr ⟨m, List.mem_cons_of_mem _ hm, rfl⟩

lemma foldl_nodes_pres {β : Type} (step : (List Node × List Link) → β → List Node × List Link)
    (P : Node → Prop)
    (hstep : ∀ st b, (∀ n ∈ st.1, P n) → ∀ n ∈ (step st b).1, P n) :
    ∀ (l : List β) (st : List Node × List Link),
      (∀ n ∈ st.1, P n) → ∀ n ∈ (l.foldl step st).1, P n := by
  intro l
  induction l with
  | nil => intro st h; exact h
  | cons b bs ih => intro st h; exact ih _ (hstep st b h)

lemma genSrcNodes_pres (P : Node → Prop) (mk : SrcRec → Node) (guard : SrcRec → Bool)
    (ns : List Node) (r : SrcRec)
    (hupd : ∀ n, P n → P { n with tables := addTables n.tables (srcCnt r) })
    (hmk : P (mk r)) (h : ∀ n ∈ ns, P n) :
    ∀ n ∈ genSrcNodes mk guard ns r, P n := by
  unfold genSrcNodes
  split
  · intro n hn
    rcases mem_updateFirst _ _ _ _ hn with h1 | ⟨m, hm, rfl⟩
    · exact h n h1
    · exact hupd m (h m hm)
  · split
    · intro n hn
      rcases List.mem_append.mp hn with h1 | h1
      · exact h n h1
      · rw [List.mem_singleton.mp h1]
        exact hmk
    · exact h

lemma genDsNodes_pres (P : Node → Prop) (mk : DsRec → Node) (guard : DsRec → Bool)
    (mixColor : String) (ns : List Node) (r : DsRec)
    (hupd : ∀ n, P n → P (promoteMixed mixColor (dsCnt r) n))
    (hmk : P (mk r)) (h : ∀ n ∈ ns, P n) :
    ∀ n ∈ genDsNodes mk guard mixColor ns r, P n := by
  unfold genDsNodes
  split
  · intro n hn
    rcases mem_updateFirst _ _ _ _ hn with h1 | ⟨m, hm, rfl⟩
    · exact h n h1
    · exact hupd m (h m hm)
  · split
    · intro n hn
      rcases List.mem_append.mp hn with h1 | h1
      · exact h n h1
      · rw [List.mem_singleton.mp h1]
        exact hmk
    · exact h

/- The platform symbol size invariant: a dataplatform typed node always
   carries the fixed 120 symbol specification. -/

def symFixedOn (n : Node) : Prop :=
  n.ntype = NodeType.dataplatform → n.sym = SymSpec.fixed 120

lemma symFixedOn_tables (c : Int) (n : Node) (h : symFixedOn n) :
    symFixedOn { n with tables := addTables n.tables c } := h

lemma symFixedOn_promote (col : String) (c : Int) (n : Node) (h : symFixedOn n) :
    symFixedOn (promoteMixed col c n) := by
  intro h2
  rw [promoteMixed_sym]
  apply h
  rw [promoteMixed_ntype] at h2
  by_cases hs : n.ntype = NodeType.source
  · rw [if_pos hs] at h2
    exact absurd h2 (by simp)
  · rw [if_neg hs] at h2
    exact h2

lemma mainBuild_platform_sym (src : List SrcRec) (ds : List DsRec)
    (cm : List (String × String)) :
    ∀ n ∈ (mainBuild src ds cm).nodes, symFixedOn n := by
  show ∀ n ∈ ((sortDs ds).foldl (mainDsStep cm (mainPlatformOrder src ds))
      ((sortSrc src).foldl (mainSrcStep cm (mainPlatformOrder src ds))
        ((mainPlatformOrder src ds).map (mkPlatformNode cm), []))).1, symFixedOn n
  apply foldl_nodes_pres _ symFixedOn
  · intro st r h
    show ∀ n ∈ genDsNodes (mkMainDsNode cm)
        (fun r2 => (mainPlatformOrder src ds).contains (dsGroupKey r2)) ("#AA46BC") st.1 r,
      symFixedOn n
    refine genDsNodes_pres symFixedOn (mkMainDsNode cm) _ _ st.1 r
      (fun n hn => symFixedOn_promote _ _ n hn) ?_ h
    intro h2
    simp [mkMainDsNode] at h2
  · apply foldl_nodes_pres _ symFixedOn
    · intro st r h
      show ∀ n ∈ genSrcNodes (mkMainSrcNode cm)
          (fun r2 => (mainPlatformOrder src ds).contains (srcGroupKey r2)) st.1 r,
        symFixedOn n
      refine genSrcNodes_pres symFixedOn (mkMainSrcNode cm) _ st.1 r
        (fun n hn => symFixedOn_tables _ n hn) ?_ h
      intro h2
      simp [mkMainSrcNode] at h2
    · intro n hn
      rcases List.mem_map.mp hn with ⟨k, _, rfl⟩
      intro _
      rfl

lemma vennBuildCore_platform_sym (src : List SrcRec) (ds : List DsRec)
    (cm : List (String × String)) :
    ∀ n ∈ (vennBuildCore src ds cm).nodes, symFixedOn n := by
  show ∀ n ∈ (vennDsPhase cm ds (vennPlatformOrder src ds)
      (vennSrcPhase cm src (vennPlatformOrder src ds)
        ((vennPlatformOrder src ds).map (mkPlatformNode cm), []))).1, symFixedOn n
  apply foldl_nodes_pres _ symFixedOn
  · intro st k h
    apply foldl_nodes_pres _ symFixedOn
    · intro st2 r h2
      show ∀ n ∈ genDsNodes (mkVennDsNode cm k) (fun _ => true)
          (lookupColor cm ("mixed") ("#AA46BC")) st2.1 r, symFixedOn n
      refine genDsNodes_pres symFixedOn (mkVennDsNode cm k) _ _ st2.1 r
        (fun n hn => symFixedOn_promote _ _ n hn) ?_ h2
      intro h3
      simp [mkVennDsNode] at h3
    · exact h
  · apply foldl_nodes_pres _ symFixedOn
    · intro st k h
      apply foldl_nodes_pres _ symFixedOn
      · intro st2 r h2
        show ∀ n ∈ genSrcNodes (mkVennSrcNode cm k) (fun _ => true) st2.1 r, symFixedOn n
        refine genSrcNodes_pres symFixedOn (mkVennSrcNode cm k) _ st2.1 r
          (fun n hn => symFixedOn_tables _ n hn) ?_ h2
        intro h3
        simp [mkVennSrcNode] at h3
      · exact h
    · intro n hn
      rcases List.mem_map.mp hn with ⟨k, _, rfl⟩
      intro _
      rfl

lemma calcSize_bounds (v : ℝ) :
    20 ≤ calculateSymbolSize v ∧ calculateSymbolSize v ≤ 100 := by
  unfold calculateSymbolSize
  split
  · norm_num
  · exact ⟨le_min (by norm_num) (le_max_left _ _), min_le_left _ _⟩

lemma calcSize_mono (v w : ℝ) (h : v ≤ w) :
    calculateSymbolSize v ≤ calculateSymbolSize w := by
  unfold calculateSymbolSize
  by_cases hv : v ≤ 0
  · rw [if_pos hv]
    by_cases hw : w ≤ 0
    · rw [if_pos hw]
    · rw [if_neg hw]
      exact le_min (by norm_num) (le_max_left _ _)
  · have hw : ¬ w ≤ 0 := fun hc => hv (h.trans hc)
    rw [if_neg hv, if_neg hw]
    have hlog : Real.log v ≤ Real.log w := Real.log_le_log (lt_of_not_le hv) h
    exact min_le_min (le_refl _)
      (max_le_max (le_refl _) (mul_le_mul_of_nonneg_right hlog (by norm_num)))

/-- C7: the shared symbol size function is non decreasing in its weight
    argument and always lands inside the configured bounds 20 and 100,
    also for zero and negative weights, and in both builders every
    Platform node carries the fixed oversized symbol specification, which
    evaluates to the constant 120 whatever the accumulated weight is. -/
theorem C7_theorem :
    (∀ v w : ℝ, v ≤ w → calculateSymbolSize v ≤ calculateSymbolSize w) ∧
    (∀ v : ℝ, 20 ≤ calculateSymbolSize v ∧ calculateSymbolSize v ≤ 100) ∧
    (∀ (src : List SrcRec) (ds : List DsRec) (cm : List (String × String)),
        ∀ n ∈ (mainBuild src ds cm).nodes,
          n.ntype = NodeType.dataplatform → n.sym = SymSpec.fixed 120) ∧
    (∀ (src : List SrcRec) (ds : List DsRec) (cm : List (String × String)),
        ∀ n ∈ (vennBuildCore src ds cm).nodes,
          n.ntype = NodeType.dataplatform → n.sym = SymSpec.fixed 120) ∧
    evalSymSpec (SymSpec.fixed 120) = 120 :=
  ⟨calcSize_mono, calcSize_bounds,
   fun src ds cm => mainBuild_platform_sym src ds cm,
   fun src ds cm => vennBuildCore_platform_sym src ds cm,
   by norm_num [evalSymSpec]⟩

theorem C7_witness :
    calculateSymbolSize 0 ≤ calculateSymbolSize 1 ∧
    (20 ≤ calculateSymbolSize (-5) ∧ calculateSymbolSize (-5) ≤ 100) ∧
    (∀ n ∈ (mainBuild c1src c1ds cm0).nodes,
        n.ntype = NodeType.dataplatform → n.sym = SymSpec.fixed 120) ∧
    (∀ n ∈ (vennBuildCore c1src c1ds cm0).nodes,
        n.ntype = NodeType.dataplatform → n.sym = SymSpec.fixed 120) ∧
    evalSymSpec (SymSpec.fixed 120) = 120 :=
  ⟨C7_theorem.1 0 1 (by norm_num), C7_theorem.2.1 (-5),
   C7_theorem.2.2.1 c1src c1ds cm0, C7_theorem.2.2.2.1 c1src c1ds cm0,
   C7_theorem.2.2.2.2⟩

/- Arithmetic on the accumulated tables field. -/

lemma addTables_addTables (t : Option Int) (a b : Int) :
    addTables (addTables t a) b = addTables t (a + b) := by
  cases t <;> simp [addTables, add_assoc]

lemma addTables_zero (t : Option Int) : addTables t 0 = t := by
  cases t <;> simp [addTables]

lemma sumSrcCnt_cons (r : SrcRec) (S : List SrcRec) (k : String) :
    sumSrcCnt (r :: S) k = (if srcKey r = k then srcCnt r else 0) + sumSrcCnt S k := by
  by_cases h : srcKey r = k <;> simp [sumSrcCnt, List.filter_cons, h]

lemma sumDsCnt_cons (r : DsRec) (D : List DsRec) (k : String) :
    sumDsCnt (r :: D) k = (if dsKey r = k then dsCnt r else 0) + sumDsCnt D k := by
  by_cases h : dsKey r = k <;> simp [sumDsCnt, List.filter_cons, h]

lemma sumSrcCnt_of_not_mem (S : List SrcRec) (k : String) (h : ¬ k ∈ S.map srcKey) :
    sumSrcCnt S k = 0 := by
  induction S with
  | nil => rfl
  | cons r S ih =>
    simp only [List.map_cons, List.mem_cons] at h
    push_neg at h
    rw [sumSrcCnt_cons, if_neg (fun hc => h.1 hc.symm), ih h.2]
    simp

lemma sumDsCnt_of_not_mem (D : List DsRec) (k : String) (h : ¬ k ∈ D.map dsKey) :
    sumDsCnt D k = 0 := by
  induction D with
  | nil => rfl
  | cons r D ih =>
    simp only [List.map_cons, List.mem_cons] at h
    push_neg at h
    rw [sumDsCnt_cons, if_neg (fun hc => h.1 hc.symm), ih h.2]
    simp

/- findN and the registry primitives. -/

lemma hasNode_eq_isSome (ns : List Node) (k : String) :
    hasNode ns k = (findN ns k).isSome := by
  induction ns with
  | nil => rfl
  | cons n ns ih =>
    unfold hasNode findN at *
    by_cases h : (n.id == k) = true
    · rw [@List.find?_cons_of_pos _ (fun m => m.id == k) n ns h]
      simp [h]
    · rw [@List.find?_cons_of_neg _ (fun m => m.id == k) n ns h]
      simp only [List.any_cons, h, Bool.false_or]
      exact ih

lemma hasNode_false_of_findN_none (ns : List Node) (k : String) (h : findN ns k = none) :
    hasNode ns k = false := by
  rw [hasNode_eq_isSome, h]
  rfl

lemma hasNode_true_of_findN_some (ns : List Node) (k : String) (n : Node)
    (h : findN ns k = some n) : hasNode ns k = true := by
  rw [hasNode_eq_isSome, h]
  rfl

lemma findN_some (ns : List Node) (k : String) (n : Node) (h : findN ns k = some n) :
    n ∈ ns ∧ n.id = k :=
  ⟨List.mem_of_find?_eq_some h, by simpa using List.find?_some h⟩

lemma findN_updateFirst_self (f : Node → Node) (k : String) (ns : List Node)
    (hf : ∀ n, (f n).id = n.id) :
    findN (updateFirst f k ns) k = (findN ns k).map f := by
  induction ns with
  | nil => rfl
  | cons n ns ih =>
    unfold updateFirst
    by_cases h : (n.id == k) = true
    · rw [if_pos h]
      unfold findN
      rw [@List.find?_cons_of_pos _ (fun m => m.id == k) (f n) ns (by simpa [hf] using h),
        @List.find?_cons_of_pos _ (fun m => m.id == k) n ns h]
      rfl
    · rw [if_neg h]
      unfold findN
      rw [@List.find?_cons_of_neg _ (fun m => m.id == k) n (updateFirst f k ns) h,
        @List.find?_cons_of_neg _ (fun m => m.id == k) n ns h]
      exact ih

lemma findN_updateFirst_other (f : Node → Node) (k k' : String) (ns : List Node)
    (hf : ∀ n, (f n).id = n.id) (hne : ¬ k' = k) :
    findN (updateFirst f k ns) k' = findN ns k' := by
  induction ns with
  | nil => rfl
  | cons n ns ih =>
    unfold updateFirst
    by_cases h : (n.id == k) = true
    · rw [if_pos h]
      have hnid : n.id = k := by simpa using h
      have h1 : ¬ ((f n).id == k') = true := by
        rw [hf, hnid]
        simp only [beq_iff_eq]
        exact fun hc => hne hc.symm
      have h2 : ¬ (n.id == k') = true := by
        rw [hnid]
        simp only [beq_iff_eq]
        exact fun hc => hne hc.symm
      unfold findN
      rw [@List.find?_cons_of_neg _ (fun m => m.id == k') (f n) ns h1,
        @List.find?_cons_of_neg _ (fun m => m.id == k') n ns h2]
    · rw [if_neg h]
      by_cases h3 : (n.id == k') = true
      · unfold findN
        rw [@List.find?_cons_of_pos _ (fun m => m.id == k') n (updateFirst f k ns) h3,
          @List.find?_cons_of_pos _ (fun m => m.id == k') n ns h3]
      · unfold findN
        rw [@List.find?_cons_of_neg _ (fun m => m.id == k') n (updateFirst f k ns) h3,
          @List.find?_cons_of_neg _ (fun m => m.id == k') n ns h3]
        exact ih

lemma findN_append (ns ms : List Node) (k : String) :
    findN (ns ++ ms) k = (findN ns k).or (findN ms k) := by
  simp [findN, List.find?_append]

lemma findN_append_some (ns ms : List Node) (k : String) (n : Node)
    (h : findN ns k = some n) : findN (ns ++ ms) k = some n := by
  rw [findN_append, h]
  rfl

lemma findN_append_none (ns ms : List Node) (k : String) (h : findN ns k = none) :
    findN (ns ++ ms) k = findN ms k := by
  rw [findN_append, h]
  rfl

lemma findN_singleton (n : Node) (k : String) :
    findN [n] k = if n.id = k then some n else none := by
  by_cases h : n.id = k
  · rw [if_pos h]
    unfold findN
    rw [@List.find?_cons_of_pos _ (fun m => m.id == k) n [] (by simpa using h)]
  · rw [if_neg h]
    unfold findN
    rw [@List.find?_cons_of_neg _ (fun m => m.id == k) n [] (by simpa using h)]
    rfl

lemma findN_platforms (cm : List (String × String)) (ks : List String) (k : String) :
    findN (ks.map (mkPlatformNode cm)) k
      = if k ∈ ks then some (mkPlatformNode cm k) else none := by
  induction ks with
  | nil => simp [findN]
  | cons a ks ih =>
    simp only [List.map_cons]
    by_cases h : a = k
    · subst h
      unfold findN
      rw [@List.find?_cons_of_pos _ (fun m => m.id == a) (mkPlatformNode cm a)
        (ks.map (mkPlatformNode cm)) (by simp [mkPlatformNode])]
      simp
    · unfold findN at ih ⊢
      rw [@List.find?_cons_of_neg _ (fun m => m.id == k) (mkPlatformNode cm a)
        (ks.map (mkPlatformNode cm)) (by simp [mkPlatformNode]; exact h)]
      rw [ih]
      by_cases hk : k ∈ ks
      · rw [if_pos hk, if_pos (List.mem_cons_of_mem _ hk)]
      · rw [if_neg hk, if_neg ?_]
        intro hc
        rcases List.mem_cons.mp hc with rfl | hc2
        · exact h rfl
        · exact hk hc2

/- Deduplication facts. -/

lemma dedupAux_sound (l : List String) : ∀ seen : List String,
    (dedupAux seen l).Nodup ∧ (∀ x ∈ dedupAux seen l, ¬ x ∈ seen ∧ x ∈ l) := by
  induction l with
  | nil => intro seen; exact ⟨List.nodup_nil, by simp [dedupAux]⟩
  | cons x xs ih =>
    intro seen
    unfold dedupAux
    by_cases h : x ∈ seen
    · rw [if_pos h]
      obtain ⟨h1, h2⟩ := ih seen
      exact ⟨h1, fun y hy => ⟨(h2 y hy).1, List.mem_cons_of_mem _ (h2 y hy).2⟩⟩
    · rw [if_neg h]
      obtain ⟨h1, h2⟩ := ih (x :: seen)
      refine ⟨List.nodup_cons.mpr ⟨?_, h1⟩, ?_⟩
      · intro hc
        exact (h2 x hc).1 (List.mem_cons_self _ _)
      · intro y hy
        rcases List.mem_cons.mp hy with rfl | hy2
        · exact ⟨h, List.mem_cons_self _ _⟩
        · exact ⟨fun hc => (h2 y hy2).1 (List.mem_cons_of_mem _ hc),
            List.mem_cons_of_mem _ (h2 y hy2).2⟩

lemma dedupKeep_nodup (l : List String) : (dedupKeep l).Nodup := (dedupAux_sound l []).1

lemma mem_dedupAux (l : List String) : ∀ (seen : List String) (x : String),
    x ∈ dedupAux seen l ↔ (x ∈ l ∧ ¬ x ∈ seen) := by
  induction l with
  | nil => intro seen x; simp [dedupAux]
  | cons y ys ih =>
    intro seen x
    unfold dedupAux
    by_cases h : y ∈ seen
    · rw [if_pos h, ih]
      constructor
      · rintro ⟨h1, h2⟩
        exact ⟨List.mem_cons_of_mem _ h1, h2⟩
      · rintro ⟨h1, h2⟩
        rcases List.mem_cons.mp h1 with rfl | h3
        · exact absurd h h2
        · exact ⟨h3, h2⟩
    · rw [if_neg h]
      constructor
      · intro h1
        rcases List.mem_cons.mp h1 with rfl | h2
        · exact ⟨List.mem_cons_self _ _, h⟩
        · obtain ⟨ha, hb⟩ := (ih _ x).mp h2
          simp only [List.mem_cons] at hb
          push_neg at hb
          exact ⟨List.mem_cons_of_mem _ ha, hb.2⟩
      · rintro ⟨h1, h2⟩
        rcases List.mem_cons.mp h1 with rfl | h3
        · exact List.mem_cons_self _ _
        · by_cases hxy : x = y
          · subst hxy
            exact List.mem_cons_self _ _
          · refine List.mem_cons_of_mem _ ((ih _ x).mpr ⟨h3, ?_⟩)
            simp only [List.mem_cons]
            push_neg
            exact ⟨hxy, h2⟩

lemma mem_dedupKeep (l : List String) (x : String) : x ∈ dedupKeep l ↔ x ∈ l := by
  rw [dedupKeep, mem_dedupAux]
  simp

/- Permutation facts for the stable sorts. -/

lemma insertLeB_perm {α : Type} (le : α → α → Bool) (x : α) (l : List α) :
    (insertLeB le x l).Perm (x :: l) := by
  induction l with
  | nil => exact List.Perm.refl _
  | cons y ys ih =>
    unfold insertLeB
    split
    · exact ((ih.cons y).trans (List.Perm.swap x y ys))
    · exact List.Perm.refl _

lemma stableSortBy_perm {α : Type} (le : α → α → Bool) (l : List α) :
    (stableSortBy le l).Perm l := by
  suffices h : ∀ (l2 acc : List α),
      (l2.foldl (fun acc2 x => insertLeB le x acc2) acc).Perm (acc ++ l2) by
    simpa [stableSortBy] using h l []
  intro l2
  induction l2 with
  | nil => intro acc; simp
  | cons x xs ih =>
    intro acc
    rw [List.foldl_cons]
    refine ((ih (insertLeB le x acc)).trans ?_)
    refine (((insertLeB_perm le x acc).append_right xs).trans ?_)
    exact List.perm_middle.symm

lemma sortSrc_perm (l : List SrcRec) : (sortSrc l).Perm l := stableSortBy_perm _ l

lemma sortDs_perm (l : List DsRec) : (sortDs l).Perm l := stableSortBy_perm _ l

lemma mem_sortSrc (l : List SrcRec) (r : SrcRec) : r ∈ sortSrc l ↔ r ∈ l :=
  (sortSrc_perm l).mem_iff

lemma mem_sortDs (l : List DsRec) (r : DsRec) : r ∈ sortDs l ↔ r ∈ l :=
  (sortDs_perm l).mem_iff

lemma sumSrcCnt_perm (l l2 : List SrcRec) (h : l.Perm l2) (k : String) :
    sumSrcCnt l k = sumSrcCnt l2 k :=
  ((h.filter _).map srcCnt).sum_eq

lemma sumDsCnt_perm (l l2 : List DsRec) (h : l.Perm l2) (k : String) :
    sumDsCnt l k = sumDsCnt l2 k :=
  ((h.filter _).map dsCnt).sum_eq

/- Nodup preservation through the registry folds. -/

lemma hasNode_false_not_mem (ns : List Node) (k : String) (h : hasNode ns k = false) :
    ¬ k ∈ ns.map Node.id := by
  intro hc
  rcases List.mem_map.mp hc with ⟨n, hn, rfl⟩
  rw [hasNode, List.any_eq_false] at h
  have h2 := h n hn
  simp at h2

lemma foldl_state_pres {β σ : Type} (step : σ → β → σ) (P : σ → Prop)
    (hstep : ∀ st b, P st → P (step st b)) :
    ∀ (l : List β) (st : σ), P st → P (l.foldl step st) := by
  intro l
  induction l with
  | nil => intro st h; exact h
  | cons b bs ih => intro st h; exact ih _ (hstep st b h)

lemma nodup_genSrcNodes (mk : SrcRec → Node) (guard : SrcRec → Bool) (ns : List Node)
    (r : SrcRec) (hmkid : (mk r).id = srcKey r) (h : (ns.map Node.id).Nodup) :
    ((genSrcNodes mk guard ns r).map Node.id).Nodup := by
  unfold genSrcNodes
  split
  · rw [updateFirst_map_id (fun n => { n with tables := addTables n.tables (srcCnt r) })
      (srcKey r) ns (fun n => rfl)]
    exact h
  case isFalse hhas =>
    split
    · have hf : hasNode ns (srcKey r) = false := by
        revert hhas
        cases hasNode ns (srcKey r) <;> simp
      have h2 := hasNode_false_not_mem ns _ hf
      rw [List.map_append]
      simp [List.nodup_append, h, hmkid, h2]
    · exact h

lemma nodup_genDsNodes (mk : DsRec → Node) (guard : DsRec → Bool) (mixColor : String)
    (ns : List Node) (r : DsRec) (hmkid : (mk r).id = dsKey r)
    (h : (ns.map Node.id).Nodup) :
    ((genDsNodes mk guard mixColor ns r).map Node.id).Nodup := by
  unfold genDsNodes
  split
  · rw [updateFirst_map_id (promoteMixed mixColor (dsCnt r)) (dsKey r) ns
      (promoteMixed_id _ _)]
    exact h
  case isFalse hhas =>
    split
    · have hf : hasNode ns (dsKey r) = false := by
        revert hhas
        cases hasNode ns (dsKey r) <;> simp
      have h2 := hasNode_false_not_mem ns _ hf
      rw [List.map_append]
      simp [List.nodup_append, h, hmkid, h2]
    · exact h

lemma findN_of_mem (ns : List Node) (n : Node) (hmem : n ∈ ns)
    (hnd : (ns.map Node.id).Nodup) : findN ns n.id = some n := by
  induction ns with
  | nil => simp at hmem
  | cons m ns ih =>
    rw [List.map_cons] at hnd
    have hnd2 := List.nodup_cons.mp hnd
    rcases List.mem_cons.mp hmem with rfl | h1
    · unfold findN
      rw [@List.find?_cons_of_pos _ (fun m2 => m2.id == n.id) n ns (by simp)]
    · have hm : ¬ (m.id == n.id) = true := by
        simp only [beq_iff_eq]
        intro hc
        have h3 : n.id ∈ ns.map Node.id := List.mem_map.mpr ⟨n, h1, rfl⟩
        rw [← hc] at h3
        exact hnd2.1 h3
      unfold findN
      rw [@List.find?_cons_of_neg _ (fun m2 => m2.id == n.id) m ns hm]
      exact ih h1 hnd2.2

/- Characterization of the source pass of the registry. -/

lemma srcFold_existing (mk : SrcRec → Node) (guard : SrcRec → Bool) :
    ∀ (S : List SrcRec) (ns : List Node) (k : String) (n0 : Node),
      findN ns k = some n0 →
      findN (S.foldl (genSrcNodes mk guard) ns) k
        = some { n0 with tables := addTables n0.tables (sumSrcCnt S k) } := by
  intro S
  induction S with
  | nil =>
    intro ns k n0 h
    rw [List.foldl_nil, h, show sumSrcCnt [] k = (0 : Int) from rfl, addTables_zero]
  | cons r S ih =>
    intro ns k n0 h
    rw [List.foldl_cons]
    by_cases hk : srcKey r = k
    · have hhas : hasNode ns (srcKey r) = true := by
        rw [hk]
        exact hasNode_true_of_findN_some ns k n0 h
      have hstep : genSrcNodes mk guard ns r
          = updateFirst (fun n => { n with tables := addTables n.tables (srcCnt r) })
              (srcKey r) ns := by
        unfold genSrcNodes
        rw [if_pos hhas]
      rw [hstep]
      have h2 : findN (updateFirst
            (fun n => { n with tables := addTables n.tables (srcCnt r) }) (srcKey r) ns) k
          = some { n0 with tables := addTables n0.tables (srcCnt r) } := by
        rw [hk, findN_updateFirst_self
          (fun n => { n with tables := addTables n.tables (srcCnt r) }) k ns (fun n => rfl), h]
        rfl
      rw [ih _ k _ h2, sumSrcCnt_cons, if_pos hk]
      simp [addTables_addTables]
    · have hpres : findN (genSrcNodes mk guard ns r) k = some n0 := by
        unfold genSrcNodes
        split
        · rw [findN_updateFirst_other
            (fun n => { n with tables := addTables n.tables (srcCnt r) }) (srcKey r) k ns
            (fun n => rfl) (fun hc => hk hc.symm)]
          exact h
        · split
          · exact findN_append_some _ _ _ _ h
          · exact h
      rw [ih _ k _ hpres, sumSrcCnt_cons, if_neg hk]
      simp

lemma srcFold_new (mk : SrcRec → Node) (guard : SrcRec → Bool)
    (hmkid : ∀ r, (mk r).id = srcKey r)
    (hmkty : ∀ r, (mk r).ntype = NodeType.source)
    (hmktab : ∀ r, (mk r).tables = some (srcCnt r)) :
    ∀ (S : List SrcRec) (ns : List Node) (k : String),
      findN ns k = none → (∀ r ∈ S, guard r = true) → k ∈ S.map srcKey →
      ∃ n1, findN (S.foldl (genSrcNodes mk guard) ns) k = some n1 ∧
        n1.id = k ∧ n1.ntype = NodeType.source ∧ n1.tables = some (sumSrcCnt S k) := by
  intro S
  induction S with
  | nil =>
    intro ns k _ _ hmem
    simp at hmem
  | cons r S ih =>
    intro ns k hnone hguard hmem
    rw [List.foldl_cons]
    by_cases hk : srcKey r = k
    · have hhas : hasNode ns (srcKey r) = false := by
        rw [hk]
        exact hasNode_false_of_findN_none ns k hnone
      have hstep : genSrcNodes mk guard ns r = ns ++ [mk r] := by
        unfold genSrcNodes
        rw [if_neg (by simp [hhas]), if_pos (hguard r (List.mem_cons_self _ _))]
      rw [hstep]
      have hfind : findN (ns ++ [mk r]) k = some (mk r) := by
        rw [findN_append_none _ _ _ hnone, findN_singleton, if_pos (by rw [hmkid r, hk])]
      have hres := srcFold_existing mk guard S _ k _ hfind
      refine ⟨_, hres, ?_, ?_, ?_⟩
      · show (mk r).id = k
        rw [hmkid r, hk]
      · show (mk r).ntype = NodeType.source
        exact hmkty r
      · show addTables (mk r).tables (sumSrcCnt S k) = some (sumSrcCnt (r :: S) k)
        rw [hmktab r, sumSrcCnt_cons, if_pos hk]
        rfl
    · have hpres : findN (genSrcNodes mk guard ns r) k = none := by
        unfold genSrcNodes
        split
        · rw [findN_updateFirst_other
            (fun n => { n with tables := addTables n.tables (srcCnt r) }) (srcKey r) k ns
            (fun n => rfl) (fun hc => hk hc.symm)]
          exact hnone
        · split
          · rw [findN_append_none _ _ _ hnone, findN_singleton,
              if_neg (by rw [hmkid r]; exact hk)]
          · exact hnone
      have hmem2 : k ∈ S.map srcKey := by
        simp only [List.map_cons, List.mem_cons] at hmem
        rcases hmem with h1 | h1
        · exact absurd h1.symm hk
        · exact h1
      obtain ⟨n1, hfind, hid, hty, htab⟩ :=
        ih _ k hpres (fun r2 hr2 => hguard r2 (List.mem_cons_of_mem _ hr2)) hmem2
      refine ⟨n1, hfind, hid, hty, ?_⟩
      rw [htab, sumSrcCnt_cons, if_neg hk]
      simp

lemma srcFold_absent (mk : SrcRec → Node) (guard : SrcRec → Bool)
    (hmkid : ∀ r, (mk r).id = srcKey r) :
    ∀ (S : List SrcRec) (ns : List Node) (k : String),
      findN ns k = none → ¬ k ∈ S.map srcKey →
      findN (S.foldl (genSrcNodes mk guard) ns) k = none := by
  intro S
  induction S with
  | nil =>
    intro ns k h _
    exact h
  | cons r S ih =>
    intro ns k hnone hmem
    simp only [List.map_cons, List.mem_cons] at hmem
    push_neg at hmem
    rw [List.foldl_cons]
    have hpres : findN (genSrcNodes mk guard ns r) k = none := by
      unfold genSrcNodes
      split
      · rw [findN_updateFirst_other
          (fun n => { n with tables := addTables n.tables (srcCnt r) }) (srcKey r) k ns
          (fun n => rfl) (fun hc => hmem.1 hc)]
        exact hnone
      · split
        · rw [findN_append_none _ _ _ hnone, findN_singleton,
            if_neg (by rw [hmkid r]; exact fun hc => hmem.1 hc.symm)]
        · exact hnone
    exact ih _ k hpres hmem.2

/- Characterization of the downstream pass of the registry. -/

lemma dsFold_existing (mk : DsRec → Node) (guard : DsRec → Bool) (mixColor : String) :
    ∀ (D : List DsRec) (ns : List Node) (k : String) (n0 : Node),
      findN ns k = some n0 →
      ∃ n1, findN (D.foldl (genDsNodes mk guard mixColor) ns) k = some n1 ∧
        n1.id = n0.id ∧ n1.dataPlatform = n0.dataPlatform ∧
        n1.tables = addTables n0.tables (sumDsCnt D k) ∧
        n1.ntype = (if n0.ntype = NodeType.source ∧ k ∈ D.map dsKey then NodeType.mixed
          else n0.ntype) := by
  intro D
  induction D with
  | nil =>
    intro ns k n0 h
    refine ⟨n0, by simpa using h, rfl, rfl, ?_, ?_⟩
    · rw [show sumDsCnt [] k = (0 : Int) from rfl, addTables_zero]
    · simp
  | cons r D ih =>
    intro ns k n0 h
    rw [List.foldl_cons]
    by_cases hk : dsKey r = k
    · have hhas : hasNode ns (dsKey r) = true := by
        rw [hk]
        exact hasNode_true_of_findN_some ns k n0 h
      have hstep : genDsNodes mk guard mixColor ns r
          = updateFirst (promoteMixed mixColor (dsCnt r)) (dsKey r) ns := by
        unfold genDsNodes
        rw [if_pos hhas]
      rw [hstep]
      have h2 : findN (updateFirst (promoteMixed mixColor (dsCnt r)) (dsKey r) ns) k
          = some (promoteMixed mixColor (dsCnt r) n0) := by
        rw [hk, findN_updateFirst_self _ _ _ (promoteMixed_id _ _), h]
        rfl
      obtain ⟨n1, hfind, hid, hdp, htab, hty⟩ := ih _ k _ h2
      have hmem : k ∈ (r :: D).map dsKey := by
        simp [List.map_cons, List.mem_cons, hk]
      refine ⟨n1, hfind, ?_, ?_, ?_, ?_⟩
      · rw [hid, promoteMixed_id]
      · rw [hdp, promoteMixed_dataPlatform]
      · rw [htab, promoteMixed_tables, addTables_addTables, sumDsCnt_cons, if_pos hk]
      · rw [hty, promoteMixed_ntype]
        by_cases hs : n0.ntype = NodeType.source
        · simp [hs, hk]
        · simp [hs]
    · have hpres : findN (genDsNodes mk guard mixColor ns r) k = some n0 := by
        unfold genDsNodes
        split
        · rw [findN_updateFirst_other _ _ _ _ (promoteMixed_id _ _) (fun hc => hk hc.symm)]
          exact h
        · split
          · exact findN_append_some _ _ _ _ h
          · exact h
      obtain ⟨n1, hfind, hid, hdp, htab, hty⟩ := ih _ k _ hpres
      have hne : ¬ k = dsKey r := fun hc => hk hc.symm
      refine ⟨n1, hfind, hid, hdp, ?_, ?_⟩
      · rw [htab, sumDsCnt_cons, if_neg hk]
        simp
      · rw [hty]
        by_cases hs : n0.ntype = NodeType.source <;>
          by_cases hmem : k ∈ D.map dsKey <;>
            simp [hs, hmem, hne]

lemma dsFold_new (mk : DsRec → Node) (guard : DsRec → Bool) (mixColor : String)
    (hmkid : ∀ r, (mk r).id = dsKey r)
    (hmkty : ∀ r, (mk r).ntype = NodeType.downstream)
    (hmktab : ∀ r, (mk r).tables = some (dsCnt r)) :
    ∀ (D : List DsRec) (ns : List Node) (k : String),
      findN ns k = none → (∀ r ∈ D, guard r = true) → k ∈ D.map dsKey →
      ∃ n1, findN (D.foldl (genDsNodes mk guard mixColor) ns) k = some n1 ∧
        n1.id = k ∧ n1.ntype = NodeType.downstream ∧ n1.tables = some (sumDsCnt D k) := by
  intro D
  induction D with
  | nil =>
    intro ns k _ _ hmem
    simp at hmem
  | cons r D ih =>
    intro ns k hnone hguard hmem
    rw [List.foldl_cons]
    by_cases hk : dsKey r = k
    · have hhas : hasNode ns (dsKey r) = false := by
        rw [hk]
        exact hasNode_false_of_findN_none ns k hnone
      have hstep : genDsNodes mk guard mixColor ns r = ns ++ [mk r] := by
        unfold genDsNodes
        rw [if_neg (by simp [hhas]), if_pos (hguard r (List.mem_cons_self _ _))]
      rw [hstep]
      have hfind : findN (ns ++ [mk r]) k = some (mk r) := by
        rw [findN_append_none _ _ _ hnone, findN_singleton, if_pos (by rw [hmkid r, hk])]
      obtain ⟨n1, hres, hid, hdp, htab, hty⟩ := dsFold_existing mk guard mixColor D _ k _ hfind
      refine ⟨n1, hres, ?_, ?_, ?_⟩
      · rw [hid, hmkid r, hk]
      · rw [hty, hmkty r]
        simp
      · rw [htab, hmktab r, sumDsCnt_cons, if_pos hk]
        rfl
    · have hpres : findN (genDsNodes mk guard mixColor ns r) k = none := by
        unfold genDsNodes
        split
        · rw [findN_updateFirst_other _ _ _ _ (promoteMixed_id _ _) (fun hc => hk hc.symm)]
          exact hnone
        · split
          · rw [findN_append_none _ _ _ hnone, findN_singleton,
              if_neg (by rw [hmkid r]; exact hk)]
          · exact hnone
      have hmem2 : k ∈ D.map dsKey := by
        simp only [List.map_cons, List.mem_cons] at hmem
        rcases hmem with h1 | h1
        · exact absurd h1.symm hk
        · exact h1
      obtain ⟨n1, hfind, hid, hty, htab⟩ :=
        ih _ k hpres (fun r2 hr2 => hguard r2 (List.mem_cons_of_mem _ hr2)) hmem2
      refine ⟨n1, hfind, hid, hty, ?_⟩
      rw [htab, sumDsCnt_cons, if_neg hk]
      simp

lemma dsFold_absent (mk : DsRec → Node) (guard : DsRec → Bool) (mixColor : String)
    (hmkid : ∀ r, (mk r).id = dsKey r) :
    ∀ (D : List DsRec) (ns : List Node) (k : String),
      findN ns k = none → ¬ k ∈ D.map dsKey →
      findN (D.foldl (genDsNodes mk guard mixColor) ns) k = none := by
  intro D
  induction D with
  | nil =>
    intro ns k h _
    exact h
  | cons r D ih =>
    intro ns k hnone hmem
    simp only [List.map_cons, List.mem_cons] at hmem
    push_neg at hmem
    rw [List.foldl_cons]
    have hpres : findN (genDsNodes mk guard mixColor ns r) k = none := by
      unfold genDsNodes
      split
      · rw [findN_updateFirst_other _ _ _ _ (promoteMixed_id _ _) (fun hc => hmem.1 hc)]
        exact hnone
      · split
        · rw [findN_append_none _ _ _ hnone, findN_singleton,
            if_neg (by rw [hmkid r]; exact fun hc => hmem.1 hc.symm)]
        · exact hnone
    exact ih _ k hpres hmem.2

/- From the two builders to uniform node folds. -/

lemma foldl_fst {β : Type} (step : (List Node × List Link) → β → List Node × List Link)
    (g : List Node → β → List Node)
    (hstep : ∀ st b, (step st b).1 = g st.1 b) :
    ∀ (l : List β) (st : List Node × List Link), ((l.foldl step st).1) = l.foldl g st.1 := by
  intro l
  induction l with
  | nil => intro st; rfl
  | cons b bs ih =>
    intro st
    rw [List.foldl_cons, List.foldl_cons, ih, hstep]

lemma foldl_congr_mem {α β : Type} (f g : β → α → β) (l : List α)
    (h : ∀ (b : β) (a : α), a ∈ l → f b a = g b a) :
    ∀ b, l.foldl f b = l.foldl g b := by
  induction l with
  | nil => intro b; rfl
  | cons a l ih =>
    intro b
    rw [List.foldl_cons, List.foldl_cons, h b a (List.mem_cons_self _ _)]
    exact ih (fun b2 a2 ha => h b2 a2 (List.mem_cons_of_mem _ ha)) _

lemma mainBuild_nodes (src : List SrcRec) (ds : List DsRec) (cm : List (String × String)) :
    (mainBuild src ds cm).nodes
      = (sortDs ds).foldl (genDsNodes (mkMainDsNode cm)
          (fun r2 => (mainPlatformOrder src ds).contains (dsGroupKey r2)) ("#AA46BC"))
        ((sortSrc src).foldl (genSrcNodes (mkMainSrcNode cm)
          (fun r2 => (mainPlatformOrder src ds).contains (srcGroupKey r2)))
          ((mainPlatformOrder src ds).map (mkPlatformNode cm))) := by
  show ((sortDs ds).foldl (mainDsStep cm (mainPlatformOrder src ds))
      ((sortSrc src).foldl (mainSrcStep cm (mainPlatformOrder src ds))
        ((mainPlatformOrder src ds).map (mkPlatformNode cm), []))).1 = _
  rw [foldl_fst (mainDsStep cm (mainPlatformOrder src ds))
    (genDsNodes (mkMainDsNode cm)
      (fun r2 => (mainPlatformOrder src ds).contains (dsGroupKey r2)) ("#AA46BC"))
    (fun st b => rfl)]
  rw [foldl_fst (mainSrcStep cm (mainPlatformOrder src ds))
    (genSrcNodes (mkMainSrcNode cm)
      (fun r2 => (mainPlatformOrder src ds).contains (srcGroupKey r2)))
    (fun st b => rfl)]

lemma mainBuildDsFirst_nodes (src : List SrcRec) (ds : List DsRec)
    (cm : List (String × String)) :
    (mainBuildDsFirst src ds cm).nodes
      = (sortSrc src).foldl (genSrcNodes (mkMainSrcNode cm)
          (fun r2 => (mainPlatformOrder src ds).contains (srcGroupKey r2)))
        ((sortDs ds).foldl (genDsNodes (mkMainDsNode cm)
          (fun r2 => (mainPlatformOrder src ds).contains (dsGroupKey r2)) ("#AA46BC"))
          ((mainPlatformOrder src ds).map (mkPlatformNode cm))) := by
  show ((sortSrc src).foldl (mainSrcStep cm (mainPlatformOrder src ds))
      ((sortDs ds).foldl (mainDsStep cm (mainPlatformOrder src ds))
        ((mainPlatformOrder src ds).map (mkPlatformNode cm), []))).1 = _
  rw [foldl_fst (mainSrcStep cm (mainPlatformOrder src ds))
    (genSrcNodes (mkMainSrcNode cm)
      (fun r2 => (mainPlatformOrder src ds).contains (srcGroupKey r2)))
    (fun st b => rfl)]
  rw [foldl_fst (mainDsStep cm (mainPlatformOrder src ds))
    (genDsNodes (mkMainDsNode cm)
      (fun r2 => (mainPlatformOrder src ds).contains (dsGroupKey r2)) ("#AA46BC"))
    (fun st b => rfl)]

lemma vennSrcPhase_nodes (cm : List (String × String)) (src : List SrcRec)
    (ks : List String) (st : List Node × List Link) :
    (vennSrcPhase cm src ks st).1
      = (vennSrcSeq src ks).foldl
          (genSrcNodes (fun r => mkVennSrcNode cm (srcGroupKey r) r) (fun _ => true)) st.1 := by
  have h1 : (vennSrcPhase cm src ks st).1
      = ks.foldl (fun ns k => (vennGroupSrc src k).foldl
          (genSrcNodes (mkVennSrcNode cm k) (fun _ => true)) ns) st.1 := by
    unfold vennSrcPhase
    exact foldl_fst _
      (fun ns k => (vennGroupSrc src k).foldl
        (genSrcNodes (mkVennSrcNode cm k) (fun _ => true)) ns)
      (fun st2 k => foldl_fst (vennSrcStep cm k)
        (genSrcNodes (mkVennSrcNode cm k) (fun _ => true)) (fun st3 b => rfl)
        (vennGroupSrc src k) st2) ks st
  have h2 : ∀ (k : String) (ns : List Node),
      (vennGroupSrc src k).foldl (genSrcNodes (mkVennSrcNode cm k) (fun _ => true)) ns
        = (vennGroupSrc src k).foldl
            (genSrcNodes (fun r => mkVennSrcNode cm (srcGroupKey r) r) (fun _ => true)) ns := by
    intro k ns
    apply foldl_congr_mem
    intro b r hr
    have heq : srcGroupKey r = k := by
      have hmf := List.mem_filter.mp hr
      simpa using hmf.2
    simp only [genSrcNodes, heq]
  have h3 : ks.foldl (fun ns k => (vennGroupSrc src k).foldl
        (genSrcNodes (mkVennSrcNode cm k) (fun _ => true)) ns) st.1
      = ks.foldl (fun ns k => (vennGroupSrc src k).foldl
          (genSrcNodes (fun r => mkVennSrcNode cm (srcGroupKey r) r) (fun _ => true)) ns) st.1 := by
    congr 1
    funext ns k
    exact h2 k ns
  rw [h1, h3]
  unfold vennSrcSeq
  rw [List.foldl_flatten, List.foldl_map]

lemma vennDsPhase_nodes (cm : List (String × String)) (ds : List DsRec)
    (ks : List String) (st : List Node × List Link) :
    (vennDsPhase cm ds ks st).1
      = (vennDsSeq ds ks).foldl
          (genDsNodes (fun r => mkVennDsNode cm (dsGroupKey r) r) (fun _ => true)
            (lookupColor cm ("mixed") ("#AA46BC"))) st.1 := by
  have h1 : (vennDsPhase cm ds ks st).1
      = ks.foldl (fun ns k => (vennGroupDs ds k).foldl
          (genDsNodes (mkVennDsNode cm k) (fun _ => true)
            (lookupColor cm ("mixed") ("#AA46BC"))) ns) st.1 := by
    unfold vennDsPhase
    exact foldl_fst _
      (fun ns k => (vennGroupDs ds k).foldl
        (genDsNodes (mkVennDsNode cm k) (fun _ => true)
          (lookupColor cm ("mixed") ("#AA46BC"))) ns)
      (fun st2 k => foldl_fst (vennDsStep cm k)
        (genDsNodes (mkVennDsNode cm k) (fun _ => true)
          (lookupColor cm ("mixed") ("#AA46BC"))) (fun st3 b => rfl)
        (vennGroupDs ds k) st2) ks st
  have h2 : ∀ (k : String) (ns : List Node),
      (vennGroupDs ds k).foldl (genDsNodes (mkVennDsNode cm k) (fun _ => true)
          (lookupColor cm ("mixed") ("#AA46BC"))) ns
        = (vennGroupDs ds k).foldl
            (genDsNodes (fun r => mkVennDsNode cm (dsGroupKey r) r) (fun _ => true)
              (lookupColor cm ("mixed") ("#AA46BC"))) ns := by
    intro k ns
    apply foldl_congr_mem
    intro b r hr
    have heq : dsGroupKey r = k := by
      have hmf := List.mem_filter.mp hr
      simpa using hmf.2
    simp only [genDsNodes, heq]
  have h3 : ks.foldl (fun ns k => (vennGroupDs ds k).foldl
        (genDsNodes (mkVennDsNode cm k) (fun _ => true)
          (lookupColor cm ("mixed") ("#AA46BC"))) ns) st.1
      = ks.foldl (fun ns k => (vennGroupDs ds k).foldl
          (genDsNodes (fun r => mkVennDsNode cm (dsGroupKey r) r) (fun _ => true)
            (lookupColor cm ("mixed") ("#AA46BC"))) ns) st.1 := by
    congr 1
    funext ns k
    exact h2 k ns
  rw [h1, h3]
  unfold vennDsSeq
  rw [List.foldl_flatten, List.foldl_map]

lemma vennBuildCore_nodes (src : List SrcRec) (ds : List DsRec)
    (cm : List (String × String)) :
    (vennBuildCore src ds cm).nodes
      = (vennDsSeq ds (vennPlatformOrder src ds)).foldl
          (genDsNodes (fun r => mkVennDsNode cm (dsGroupKey r) r) (fun _ => true)
            (lookupColor cm ("mixed") ("#AA46BC")))
        ((vennSrcSeq src (vennPlatformOrder src ds)).foldl
          (genSrcNodes (fun r => mkVennSrcNode cm (srcGroupKey r) r) (fun _ => true))
          ((vennPlatformOrder src ds).map (mkPlatformNode cm))) := by
  show (vennDsPhase cm ds (vennPlatformOrder src ds)
      (vennSrcPhase cm src (vennPlatformOrder src ds)
        ((vennPlatformOrder src ds).map (mkPlatformNode cm), []))).1 = _
  rw [vennDsPhase_nodes, vennSrcPhase_nodes]

/- Membership conversions between inputs and processed sequences. -/

lemma mem_vennSrcSeq (src : List SrcRec) (ks : List String) (r : SrcRec) :
    r ∈ vennSrcSeq src ks ↔ (r ∈ src ∧ srcGroupKey r ∈ ks) := by
  unfold vennSrcSeq vennGroupSrc
  simp only [List.mem_flatten, List.mem_map]
  constructor
  · rintro ⟨l, ⟨k, hk, rfl⟩, hr⟩
    have hmf := List.mem_filter.mp hr
    have heq : srcGroupKey r = k := by simpa using hmf.2
    exact ⟨(mem_sortSrc _ _).mp hmf.1, heq ▸ hk⟩
  · rintro ⟨h1, h2⟩
    exact ⟨(sortSrc src).filter (fun r2 => srcGroupKey r2 == srcGroupKey r),
      ⟨srcGroupKey r, h2, rfl⟩,
      List.mem_filter.mpr ⟨(mem_sortSrc _ _).mpr h1, by simp⟩⟩

lemma mem_vennDsSeq (ds : List DsRec) (ks : List String) (r : DsRec) :
    r ∈ vennDsSeq ds ks ↔ (r ∈ ds ∧ dsGroupKey r ∈ ks) := by
  unfold vennDsSeq vennGroupDs
  simp only [List.mem_flatten, List.mem_map]
  constructor
  · rintro ⟨l, ⟨k, hk, rfl⟩, hr⟩
    have hmf := List.mem_filter.mp hr
    have heq : dsGroupKey r = k := by simpa using hmf.2
    exact ⟨(mem_sortDs _ _).mp hmf.1, heq ▸ hk⟩
  · rintro ⟨h1, h2⟩
    exact ⟨(sortDs ds).filter (fun r2 => dsGroupKey r2 == dsGroupKey r),
      ⟨dsGroupKey r, h2, rfl⟩,
      List.mem_filter.mpr ⟨(mem_sortDs _ _).mpr h1, by simp⟩⟩

lemma mem_sortSrc_keys (src : List SrcRec) (k : String) :
    k ∈ (sortSrc src).map srcKey ↔ ∃ r ∈ src, srcKey r = k := by
  simp only [List.mem_map]
  constructor
  · rintro ⟨r, hr, rfl⟩
    exact ⟨r, (mem_sortSrc _ _).mp hr, rfl⟩
  · rintro ⟨r, hr, rfl⟩
    exact ⟨r, (mem_sortSrc _ _).mpr hr, rfl⟩

lemma mem_sortDs_keys (ds : List DsRec) (k : String) :
    k ∈ (sortDs ds).map dsKey ↔ ∃ r ∈ ds, dsKey r = k := by
  simp only [List.mem_map]
  constructor
  · rintro ⟨r, hr, rfl⟩
    exact ⟨r, (mem_sortDs _ _).mp hr, rfl⟩
  · rintro ⟨r, hr, rfl⟩
    exact ⟨r, (mem_sortDs _ _).mpr hr, rfl⟩

lemma mem_vennSrcSeq_keys (src : List SrcRec) (ks : List String) (k : String)
    (hcover : ∀ r ∈ src, srcGroupKey r ∈ ks) :
    k ∈ (vennSrcSeq src ks).map srcKey ↔ ∃ r ∈ src, srcKey r = k := by
  simp only [List.mem_map]
  constructor
  · rintro ⟨r, hr, rfl⟩
    exact ⟨r, ((mem_vennSrcSeq src ks r).mp hr).1, rfl⟩
  · rintro ⟨r, hr, rfl⟩
    exact ⟨r, (mem_vennSrcSeq src ks r).mpr ⟨hr, hcover r hr⟩, rfl⟩

lemma mem_vennDsSeq_keys (ds : List DsRec) (ks : List String) (k : String)
    (hcover : ∀ r ∈ ds, dsGroupKey r ∈ ks) :
    k ∈ (vennDsSeq ds ks).map dsKey ↔ ∃ r ∈ ds, dsKey r = k := by
  simp only [List.mem_map]
  constructor
  · rintro ⟨r, hr, rfl⟩
    exact ⟨r, ((mem_vennDsSeq ds ks r).mp hr).1, rfl⟩
  · rintro ⟨r, hr, rfl⟩
    exact ⟨r, (mem_vennDsSeq ds ks r).mpr ⟨hr, hcover r hr⟩, rfl⟩

/- Nodup of the produced node lists. -/

lemma srcFold_nodup (mk : SrcRec → Node) (guard : SrcRec → Bool)
    (hmkid : ∀ r, (mk r).id = srcKey r) (S : List SrcRec) (ns : List Node)
    (h : (ns.map Node.id).Nodup) :
    ((S.foldl (genSrcNodes mk guard) ns).map Node.id).Nodup :=
  foldl_state_pres (genSrcNodes mk guard) (fun ns2 => (ns2.map Node.id).Nodup)
    (fun ns2 r h2 => nodup_genSrcNodes mk guard ns2 r (hmkid r) h2) S ns h

lemma dsFold_nodup (mk : DsRec → Node) (guard : DsRec → Bool) (mixColor : String)
    (hmkid : ∀ r, (mk r).id = dsKey r) (D : List DsRec) (ns : List Node)
    (h : (ns.map Node.id).Nodup) :
    ((D.foldl (genDsNodes mk guard mixColor) ns).map Node.id).Nodup :=
  foldl_state_pres (genDsNodes mk guard mixColor) (fun ns2 => (ns2.map Node.id).Nodup)
    (fun ns2 r h2 => nodup_genDsNodes mk guard mixColor ns2 r (hmkid r) h2) D ns h

lemma platformNodes_map_id (cm : List (String × String)) (ks : List String) :
    (ks.map (mkPlatformNode cm)).map Node.id = ks := by
  rw [List.map_map]
  exact List.map_id _

lemma mainBuild_nodup (src : List SrcRec) (ds : List DsRec) (cm : List (String × String)) :
    (((mainBuild src ds cm).nodes).map Node.id).Nodup := by
  rw [mainBuild_nodes]
  apply dsFold_nodup _ _ _ (fun r => rfl)
  apply srcFold_nodup _ _ (fun r => rfl)
  rw [platformNodes_map_id]
  exact dedupKeep_nodup _

lemma mainBuildDsFirst_nodup (src : List SrcRec) (ds : List DsRec)
    (cm : List (String × String)) :
    (((mainBuildDsFirst src ds cm).nodes).map Node.id).Nodup := by
  rw [mainBuildDsFirst_nodes]
  apply srcFold_nodup _ _ (fun r => rfl)
  apply dsFold_nodup _ _ _ (fun r => rfl)
  rw [platformNodes_map_id]
  exact dedupKeep_nodup _

lemma vennBuildCore_nodup (src : List SrcRec) (ds : List DsRec)
    (cm : List (String × String)) :
    (((vennBuildCore src ds cm).nodes).map Node.id).Nodup := by
  rw [vennBuildCore_nodes]
  apply dsFold_nodup _ _ _ (fun r => rfl)
  apply srcFold_nodup _ _ (fun r => rfl)
  rw [platformNodes_map_id]
  exact ((stableSortBy_perm _ _).nodup_iff).mpr (dedupKeep_nodup _)

/- Composition of the two passes over a common initial registry. -/

lemma contains_of_mem (l : List String) (a : String) (h : a ∈ l) : l.contains a = true := by
  simp [h]

lemma twoPass_existing (mkS : SrcRec → Node) (gS : SrcRec → Bool)
    (mkD : DsRec → Node) (gD : DsRec → Bool) (mix : String)
    (S : List SrcRec) (D : List DsRec) (ns : List Node) (k : String) (n0 : Node)
    (h : findN ns k = some n0) :
    ∃ n1, findN (D.foldl (genDsNodes mkD gD mix) (S.foldl (genSrcNodes mkS gS) ns)) k
        = some n1 ∧
      n1.id = n0.id ∧ n1.dataPlatform = n0.dataPlatform ∧
      n1.tables = addTables n0.tables (sumSrcCnt S k + sumDsCnt D k) ∧
      n1.ntype = (if n0.ntype = NodeType.source ∧ k ∈ D.map dsKey then NodeType.mixed
        else n0.ntype) := by
  have h1 := srcFold_existing mkS gS S ns k n0 h
  obtain ⟨n1, hf, hid, hdp, htab, hty⟩ := dsFold_existing mkD gD mix D _ k _ h1
  refine ⟨n1, hf, hid, hdp, ?_, hty⟩
  have htab2 : n1.tables = addTables (addTables n0.tables (sumSrcCnt S k)) (sumDsCnt D k) :=
    htab
  rw [htab2, addTables_addTables]

lemma twoPass_src_new (mkS : SrcRec → Node) (gS : SrcRec → Bool)
    (mkD : DsRec → Node) (gD : DsRec → Bool) (mix : String)
    (hmkSid : ∀ r, (mkS r).id = srcKey r)
    (hmkSty : ∀ r, (mkS r).ntype = NodeType.source)
    (hmkStab : ∀ r, (mkS r).tables = some (srcCnt r))
    (S : List SrcRec) (D : List DsRec) (ns : List Node) (k : String)
    (h : findN ns k = none) (hgS : ∀ r ∈ S, gS r = true) (hks : k ∈ S.map srcKey) :
    ∃ n1, findN (D.foldl (genDsNodes mkD gD mix) (S.foldl (genSrcNodes mkS gS) ns)) k
        = some n1 ∧
      n1.id = k ∧ n1.tables = some (sumSrcCnt S k + sumDsCnt D k) ∧
      n1.ntype = (if k ∈ D.map dsKey then NodeType.mixed else NodeType.source) := by
  obtain ⟨m, hf, hid, hty, htab⟩ := srcFold_new mkS gS hmkSid hmkSty hmkStab S ns k h hgS hks
  obtain ⟨n1, hf2, hid2, _, htab2, hty2⟩ := dsFold_existing mkD gD mix D _ k m hf
  refine ⟨n1, hf2, by rw [hid2, hid], ?_, ?_⟩
  · rw [htab2, htab]
    rfl
  · rw [hty2, hty]
    by_cases hd : k ∈ D.map dsKey <;> simp [hd]

lemma twoPass_ds_new (mkS : SrcRec → Node) (gS : SrcRec → Bool)
    (mkD : DsRec → Node) (gD : DsRec → Bool) (mix : String)
    (hmkSid : ∀ r, (mkS r).id = srcKey r)
    (hmkDid : ∀ r, (mkD r).id = dsKey r)
    (hmkDty : ∀ r, (mkD r).ntype = NodeType.downstream)
    (hmkDtab : ∀ r, (mkD r).tables = some (dsCnt r))
    (S : List SrcRec) (D : List DsRec) (ns : List Node) (k : String)
    (h : findN ns k = none) (hknotS : ¬ k ∈ S.map srcKey)
    (hgD : ∀ r ∈ D, gD r = true) (hkd : k ∈ D.map dsKey) :
    ∃ n1, findN (D.foldl (genDsNodes mkD gD mix) (S.foldl (genSrcNodes mkS gS) ns)) k
        = some n1 ∧
      n1.id = k ∧ n1.tables = some (sumDsCnt D k) ∧ n1.ntype = NodeType.downstream := by
  have h1 := srcFold_absent mkS gS hmkSid S ns k h hknotS
  obtain ⟨n1, hf, hid, hty, htab⟩ := dsFold_new mkD gD mix hmkDid hmkDty hmkDtab D _ k h1 hgD hkd
  exact ⟨n1, hf, hid, htab, hty⟩

lemma twoPass_absent (mkS : SrcRec → Node) (gS : SrcRec → Bool)
    (mkD : DsRec → Node) (gD : DsRec → Bool) (mix : String)
    (hmkSid : ∀ r, (mkS r).id = srcKey r)
    (hmkDid : ∀ r, (mkD r).id = dsKey r)
    (S : List SrcRec) (D : List DsRec) (ns : List Node) (k : String)
    (h : findN ns k = none) (hknotS : ¬ k ∈ S.map srcKey) (hknotD : ¬ k ∈ D.map dsKey) :
    findN (D.foldl (genDsNodes mkD gD mix) (S.foldl (genSrcNodes mkS gS) ns)) k = none :=
  dsFold_absent mkD gD mix hmkDid D _ k (srcFold_absent mkS gS hmkSid S ns k h hknotS) hknotD

lemma twoPass_platform (mkS : SrcRec → Node) (gS : SrcRec → Bool)
    (mkD : DsRec → Node) (gD : DsRec → Bool) (mix : String)
    (cm : List (String × String)) (S : List SrcRec) (D : List DsRec)
    (pids : List String) (k : String) (hkp : k ∈ pids) :
    ∃ n1, findN (D.foldl (genDsNodes mkD gD mix) (S.foldl (genSrcNodes mkS gS)
        (pids.map (mkPlatformNode cm)))) k = some n1 ∧
      n1.ntype = NodeType.dataplatform ∧ n1.tables = none := by
  have h0 : findN (pids.map (mkPlatformNode cm)) k = some (mkPlatformNode cm k) := by
    rw [findN_platforms, if_pos hkp]
  obtain ⟨n1, hf, _, _, htab, hty⟩ := twoPass_existing mkS gS mkD gD mix S D _ k _ h0
  refine ⟨n1, hf, ?_, ?_⟩
  · rw [hty]
    simp [mkPlatformNode]
  · exact htab

/- The same composition, with the downstream pass run first. -/

lemma revPass_existing (mkS : SrcRec → Node) (gS : SrcRec → Bool)
    (mkD : DsRec → Node) (gD : DsRec → Bool) (mix : String)
    (S : List SrcRec) (D : List DsRec) (ns : List Node) (k : String) (n0 : Node)
    (h : findN ns k = some n0) :
    ∃ n1, findN (S.foldl (genSrcNodes mkS gS) (D.foldl (genDsNodes mkD gD mix) ns)) k
        = some n1 ∧ n1.tables = addTables n0.tables (sumDsCnt D k + sumSrcCnt S k) := by
  obtain ⟨m, hf, _, _, htab, _⟩ := dsFold_existing mkD gD mix D ns k n0 h
  have h2 := srcFold_existing mkS gS S _ k m hf
  refine ⟨_, h2, ?_⟩
  show addTables m.tables (sumSrcCnt S k) = _
  rw [htab, addTables_addTables]

lemma revPass_ds_new (mkS : SrcRec → Node) (gS : SrcRec → Bool)
    (mkD : DsRec → Node) (gD : DsRec → Bool) (mix : String)
    (hmkDid : ∀ r, (mkD r).id = dsKey r)
    (hmkDty : ∀ r, (mkD r).ntype = NodeType.downstream)
    (hmkDtab : ∀ r, (mkD r).tables = some (dsCnt r))
    (S : List SrcRec) (D : List DsRec) (ns : List Node) (k : String)
    (h : findN ns k = none) (hgD : ∀ r ∈ D, gD r = true) (hkd : k ∈ D.map dsKey) :
    ∃ n1, findN (S.foldl (genSrcNodes mkS gS) (D.foldl (genDsNodes mkD gD mix) ns)) k
        = some n1 ∧ n1.tables = some (sumDsCnt D k + sumSrcCnt S k) := by
  obtain ⟨m, hf, _, _, htab⟩ := dsFold_new mkD gD mix hmkDid hmkDty hmkDtab D ns k h hgD hkd
  have h2 := srcFold_existing mkS gS S _ k m hf
  refine ⟨_, h2, ?_⟩
  show addTables m.tables (sumSrcCnt S k) = _
  rw [htab]
  rfl

lemma revPass_src_new (mkS : SrcRec → Node) (gS : SrcRec → Bool)
    (mkD : DsRec → Node) (gD : DsRec → Bool) (mix : String)
    (hmkSid : ∀ r, (mkS r).id = srcKey r)
    (hmkSty : ∀ r, (mkS r).ntype = NodeType.source)
    (hmkStab : ∀ r, (mkS r).tables = some (srcCnt r))
    (hmkDid : ∀ r, (mkD r).id = dsKey r)
    (S : List SrcRec) (D : List DsRec) (ns : List Node) (k : String)
    (h : findN ns k = none) (hknotD : ¬ k ∈ D.map dsKey)
    (hgS : ∀ r ∈ S, gS r = true) (hks : k ∈ S.map srcKey) :
    ∃ n1, findN (S.foldl (genSrcNodes mkS gS) (D.foldl (genDsNodes mkD gD mix) ns)) k
        = some n1 ∧ n1.tables = some (sumSrcCnt S k) := by
  have h1 := dsFold_absent mkD gD mix hmkDid D ns k h hknotD
  obtain ⟨n1, hf, _, _, htab⟩ := srcFold_new mkS gS hmkSid hmkSty hmkStab S _ k h1 hgS hks
  exact ⟨n1, hf, htab⟩

lemma revPass_absent (mkS : SrcRec → Node) (gS : SrcRec → Bool)
    (mkD : DsRec → Node) (gD : DsRec → Bool) (mix : String)
    (hmkSid : ∀ r, (mkS r).id = srcKey r)
    (hmkDid : ∀ r, (mkD r).id = dsKey r)
    (S : List SrcRec) (D : List DsRec) (ns : List Node) (k : String)
    (h : findN ns k = none) (hknotS : ¬ k ∈ S.map srcKey) (hknotD : ¬ k ∈ D.map dsKey) :
    findN (S.foldl (genSrcNodes mkS gS) (D.foldl (genDsNodes mkD gD mix) ns)) k = none :=
  srcFold_absent mkS gS hmkSid S _ k (dsFold_absent mkD gD mix hmkDid D ns k h hknotD) hknotS

/- The mixed type of a produced node, characterized over any two pass
   registry run whose creation guards hold. -/

lemma mixedIff_from (mkS : SrcRec → Node) (gS : SrcRec → Bool)
    (mkD : DsRec → Node) (gD : DsRec → Bool) (mix : String)
    (cm : List (String × String)) (S : List SrcRec) (D : List DsRec)
    (pids : List String) (src : List SrcRec) (ds : List DsRec)
    (hmkSid : ∀ r, (mkS r).id = srcKey r)
    (hmkSty : ∀ r, (mkS r).ntype = NodeType.source)
    (hmkStab : ∀ r, (mkS r).tables = some (srcCnt r))
    (hmkDid : ∀ r, (mkD r).id = dsKey r)
    (hmkDty : ∀ r, (mkD r).ntype = NodeType.downstream)
    (hmkDtab : ∀ r, (mkD r).tables = some (dsCnt r))
    (hgS : ∀ r ∈ S, gS r = true) (hgD : ∀ r ∈ D, gD r = true)
    (hSkeys : ∀ k, k ∈ S.map srcKey ↔ ∃ r ∈ src, srcKey r = k)
    (hDkeys : ∀ k, k ∈ D.map dsKey ↔ ∃ r ∈ ds, dsKey r = k)
    (hkp1 : ∀ r ∈ src, ¬ srcKey r ∈ pids)
    (_hkp2 : ∀ r ∈ ds, ¬ dsKey r ∈ pids)
    (hnd : (((D.foldl (genDsNodes mkD gD mix) (S.foldl (genSrcNodes mkS gS)
        (pids.map (mkPlatformNode cm))))).map Node.id).Nodup) :
    ∀ n ∈ D.foldl (genDsNodes mkD gD mix)
        (S.foldl (genSrcNodes mkS gS) (pids.map (mkPlatformNode cm))),
      (n.ntype = NodeType.mixed ↔
        ((∃ r ∈ src, srcKey r = n.id) ∧ (∃ r ∈ ds, dsKey r = n.id))) := by
  intro n hn
  have hfind := findN_of_mem _ n hn hnd
  by_cases hkp : n.id ∈ pids
  · obtain ⟨n1, hf, hty, _⟩ := twoPass_platform mkS gS mkD gD mix cm S D pids n.id hkp
    have hn1 : n = n1 := Option.some.inj (hfind.symm.trans hf)
    have hnty : n.ntype = NodeType.dataplatform := by rw [hn1]; exact hty
    constructor
    · intro hmix
      rw [hnty] at hmix
      exact absurd hmix (by decide)
    · rintro ⟨⟨r, hr, hkey⟩, _⟩
      exact (hkp1 r hr (by rw [hkey]; exact hkp)).elim
  · have hnone : findN (pids.map (mkPlatformNode cm)) n.id = none := by
      rw [findN_platforms, if_neg hkp]
    by_cases hks : n.id ∈ S.map srcKey
    · by_cases hkd : n.id ∈ D.map dsKey
      · obtain ⟨n1, hf, _, _, hty⟩ := twoPass_src_new mkS gS mkD gD mix
          hmkSid hmkSty hmkStab S D _ n.id hnone hgS hks
        have hn1 : n = n1 := Option.some.inj (hfind.symm.trans hf)
        constructor
        · intro _
          exact ⟨(hSkeys n.id).mp hks, (hDkeys n.id).mp hkd⟩
        · intro _
          rw [hn1, hty, if_pos hkd]
      · obtain ⟨n1, hf, _, _, hty⟩ := twoPass_src_new mkS gS mkD gD mix
          hmkSid hmkSty hmkStab S D _ n.id hnone hgS hks
        have hn1 : n = n1 := Option.some.inj (hfind.symm.trans hf)
        constructor
        · intro hmix
          rw [hn1, hty, if_neg hkd] at hmix
          exact absurd hmix (by decide)
        · rintro ⟨_, ⟨r, hr, hkey⟩⟩
          exact absurd ((hDkeys n.id).mpr ⟨r, hr, hkey⟩) hkd
    · by_cases hkd : n.id ∈ D.map dsKey
      · obtain ⟨n1, hf, _, _, hty⟩ := twoPass_ds_new mkS gS mkD gD mix
          hmkSid hmkDid hmkDty hmkDtab S D _ n.id hnone hks hgD hkd
        have hn1 : n = n1 := Option.some.inj (hfind.symm.trans hf)
        constructor
        · intro hmix
          rw [hn1, hty] at hmix
          exact absurd hmix (by decide)
        · rintro ⟨⟨r, hr, hkey⟩, _⟩
          exact absurd ((hSkeys n.id).mpr ⟨r, hr, hkey⟩) hks
      · have habs := twoPass_absent mkS gS mkD gD mix hmkSid hmkDid S D _ n.id hnone hks hkd
        rw [hfind] at habs
        exact Option.noConfusion habs

/-- C1 amended: with every record carrying a resolvable platform key (one
    that appears among the discovered platform keys, which rules out
    absent and empty platform strings) and no entity name lower casing to
    a platform key, a node of either builder is Mixed exactly when its
    canonical key appears in at least one source record and at least one
    downstream record, and the accumulated weight of every node is the
    same whether the source pass or the downstream pass runs first; the
    final type however is NOT order independent (see the counterexample,
    where the downstream first order leaves a shared key as Downstream),
    so only the weight half of the claimed commutativity survives. -/
theorem C1_amended (src : List SrcRec) (ds : List DsRec) (cm : List (String × String))
    (hg1 : ∀ r ∈ src, srcGroupKey r ∈ discoveredPlatforms src ds)
    (hg2 : ∀ r ∈ ds, dsGroupKey r ∈ discoveredPlatforms src ds)
    (hk1 : ∀ r ∈ src, ¬ srcKey r ∈ discoveredPlatforms src ds)
    (hk2 : ∀ r ∈ ds, ¬ dsKey r ∈ discoveredPlatforms src ds) :
    (∀ n ∈ (mainBuild src ds cm).nodes,
        (n.ntype = NodeType.mixed ↔
          ((∃ r ∈ src, srcKey r = n.id) ∧ (∃ r ∈ ds, dsKey r = n.id)))) ∧
    (∀ n ∈ (vennBuildCore src ds cm).nodes,
        (n.ntype = NodeType.mixed ↔
          ((∃ r ∈ src, srcKey r = n.id) ∧ (∃ r ∈ ds, dsKey r = n.id)))) ∧
    (∀ k, nodeTables (mainBuild src ds cm) k = nodeTables (mainBuildDsFirst src ds cm) k) := by
  have hgSm : ∀ r ∈ sortSrc src,
      (mainPlatformOrder src ds).contains (srcGroupKey r) = true :=
    fun r hr => contains_of_mem _ _ (hg1 r ((mem_sortSrc _ _).mp hr))
  have hgDm : ∀ r ∈ sortDs ds,
      (mainPlatformOrder src ds).contains (dsGroupKey r) = true :=
    fun r hr => contains_of_mem _ _ (hg2 r ((mem_sortDs _ _).mp hr))
  have hcov1 : ∀ r ∈ src, srcGroupKey r ∈ vennPlatformOrder src ds :=
    fun r hr => (mem_stableSortBy _ _ _).mpr (hg1 r hr)
  have hcov2 : ∀ r ∈ ds, dsGroupKey r ∈ vennPlatformOrder src ds :=
    fun r hr => (mem_stableSortBy _ _ _).mpr (hg2 r hr)
  refine ⟨?_, ?_, ?_⟩
  · have hnd := mainBuild_nodup src ds cm
    rw [mainBuild_nodes] at hnd ⊢
    exact mixedIff_from (mkMainSrcNode cm) _ (mkMainDsNode cm) _ ("#AA46BC") cm
      (sortSrc src) (sortDs ds) (mainPlatformOrder src ds) src ds
      (fun r => rfl) (fun r => rfl) (fun r => rfl)
      (fun r => rfl) (fun r => rfl) (fun r => rfl)
      hgSm hgDm (mem_sortSrc_keys src) (mem_sortDs_keys ds) hk1 hk2 hnd
  · have hnd := vennBuildCore_nodup src ds cm
    rw [vennBuildCore_nodes] at hnd ⊢
    refine mixedIff_from (fun r => mkVennSrcNode cm (srcGroupKey r) r) _
      (fun r => mkVennDsNode cm (dsGroupKey r) r) _
      (lookupColor cm ("mixed") ("#AA46BC")) cm
      (vennSrcSeq src (vennPlatformOrder src ds)) (vennDsSeq ds (vennPlatformOrder src ds))
      (vennPlatformOrder src ds) src ds
      (fun r => rfl) (fun r => rfl) (fun r => rfl)
      (fun r => rfl) (fun r => rfl) (fun r => rfl)
      (fun r _ => rfl) (fun r _ => rfl)
      (fun k => mem_vennSrcSeq_keys src _ k hcov1)
      (fun k => mem_vennDsSeq_keys ds _ k hcov2)
      (fun r hr hc => hk1 r hr ((mem_stableSortBy _ _ _).mp hc))
      (fun r hr hc => hk2 r hr ((mem_stableSortBy _ _ _).mp hc)) hnd
  · intro k
    rw [nodeTables, nodeTables, mainBuild_nodes, mainBuildDsFirst_nodes]
    by_cases hkp : k ∈ mainPlatformOrder src ds
    · have h0 : findN ((mainPlatformOrder src ds).map (mkPlatformNode cm)) k
          = some (mkPlatformNode cm k) := by
        rw [findN_platforms, if_pos hkp]
      obtain ⟨n1, hf1, _, htab1⟩ := twoPass_platform (mkMainSrcNode cm) _
        (mkMainDsNode cm) _ ("#AA46BC") cm (sortSrc src) (sortDs ds) _ k hkp
      obtain ⟨m1, hfm, htabm⟩ := revPass_existing (mkMainSrcNode cm) _
        (mkMainDsNode cm) _ ("#AA46BC") (sortSrc src) (sortDs ds) _ k _ h0
      rw [hf1, hfm]
      have htabm2 : m1.tables = none := htabm
      simp [htab1, htabm2]
    · have hnone : findN ((mainPlatformOrder src ds).map (mkPlatformNode cm)) k = none := by
        rw [findN_platforms, if_neg hkp]
      by_cases hks : k ∈ (sortSrc src).map srcKey
      · by_cases hkd : k ∈ (sortDs ds).map dsKey
        · obtain ⟨n1, hf1, _, htab1, _⟩ := twoPass_src_new (mkMainSrcNode cm) _
            (mkMainDsNode cm) _ ("#AA46BC") (fun r => rfl) (fun r => rfl) (fun r => rfl)
            (sortSrc src) (sortDs ds) _ k hnone hgSm hks
          obtain ⟨m1, hfm, htabm⟩ := revPass_ds_new (mkMainSrcNode cm) _
            (mkMainDsNode cm) _ ("#AA46BC") (fun r => rfl) (fun r => rfl) (fun r => rfl)
            (sortSrc src) (sortDs ds) _ k hnone hgDm hkd
          rw [hf1, hfm]
          simp [htab1, htabm, add_comm]
        · obtain ⟨n1, hf1, _, htab1, _⟩ := twoPass_src_new (mkMainSrcNode cm) _
            (mkMainDsNode cm) _ ("#AA46BC") (fun r => rfl) (fun r => rfl) (fun r => rfl)
            (sortSrc src) (sortDs ds) _ k hnone hgSm hks
          obtain ⟨m1, hfm, htabm⟩ := revPass_src_new (mkMainSrcNode cm) _
            (mkMainDsNode cm) _ ("#AA46BC") (fun r => rfl) (fun r => rfl) (fun r => rfl)
            (fun r => rfl) (sortSrc src) (sortDs ds) _ k hnone hkd hgSm hks
          rw [hf1, hfm]
          simp [htab1, htabm, sumDsCnt_of_not_mem _ _ hkd]
      · by_cases hkd : k ∈ (sortDs ds).map dsKey
        · obtain ⟨n1, hf1, _, htab1, _⟩ := twoPass_ds_new (mkMainSrcNode cm) _
            (mkMainDsNode cm) _ ("#AA46BC") (fun r => rfl) (fun r => rfl) (fun r => rfl)
            (fun r => rfl) (sortSrc src) (sortDs ds) _ k hnone hks hgDm hkd
          obtain ⟨m1, hfm, htabm⟩ := revPass_ds_new (mkMainSrcNode cm) _
            (mkMainDsNode cm) _ ("#AA46BC") (fun r => rfl) (fun r => rfl) (fun r => rfl)
            (sortSrc src) (sortDs ds) _ k hnone hgDm hkd
          rw [hf1, hfm]
          simp [htab1, htabm, sumSrcCnt_of_not_mem _ _ hks]
        · rw [twoPass_absent (mkMainSrcNode cm) _ (mkMainDsNode cm) _ ("#AA46BC")
              (fun r => rfl) (fun r => rfl) (sortSrc src) (sortDs ds) _ k hnone hks hkd,
            revPass_absent (mkMainSrcNode cm) _ (mkMainDsNode cm) _ ("#AA46BC")
              (fun r => rfl) (fun r => rfl) (sortSrc src) (sortDs ds) _ k hnone hks hkd]

theorem C1_witness :
    (∀ n ∈ (mainBuild c1src c1ds cm0).nodes,
        (n.ntype = NodeType.mixed ↔
          ((∃ r ∈ c1src, srcKey r = n.id) ∧ (∃ r ∈ c1ds, dsKey r = n.id)))) ∧
    (∀ n ∈ (vennBuildCore c1src c1ds cm0).nodes,
        (n.ntype = NodeType.mixed ↔
          ((∃ r ∈ c1src, srcKey r = n.id) ∧ (∃ r ∈ c1ds, dsKey r = n.id)))) ∧
    (∀ k, nodeTables (mainBuild c1src c1ds cm0) k
        = nodeTables (mainBuildDsFirst c1src c1ds cm0) k) :=
  C1_amended c1src c1ds cm0 (by decide) (by decide) (by decide) (by decide)

/- The link component of the main builder folds: one link per record,
   appended unconditionally. -/

lemma mainSrcFold_links (cm : List (String × String)) (pids : List String)
    (l : List SrcRec) (st : List Node × List Link) :
    (l.foldl (mainSrcStep cm pids) st).2 = st.2 ++ l.map mainSrcLinkOf := by
  induction l generalizing st with
  | nil => simp
  | cons r l ih =>
    rw [List.foldl_cons, ih]
    simp [mainSrcStep]

lemma mainDsFold_links (cm : List (String × String)) (pids : List String)
    (l : List DsRec) (st : List Node × List Link) :
    (l.foldl (mainDsStep cm pids) st).2 = st.2 ++ l.map mainDsLinkOf := by
  induction l generalizing st with
  | nil => simp
  | cons r l ih =>
    rw [List.foldl_cons, ih]
    simp [mainDsStep]

lemma mainBuild_links (src : List SrcRec) (ds : List DsRec) (cm : List (String × String)) :
    (mainBuild src ds cm).links =
      ((sortSrc src).map mainSrcLinkOf ++ (sortDs ds).map mainDsLinkOf)
        ++ mainCrossLinks src ds := by
  simp [mainBuild, mainDsFold_links, mainSrcFold_links]

/- Sums of per record counts distribute over the grouped iteration order
   of the Venn builder. -/

lemma sum_map_add (ks : List String) (f g : String → Int) :
    (ks.map (fun x => f x + g x)).sum = (ks.map f).sum + (ks.map g).sum := by
  induction ks with
  | nil => rfl
  | cons a ks ih =>
    simp only [List.map_cons, List.sum_cons, ih]
    ring

lemma sum_indicator_zero (ks : List String) (g : String) (hg : ¬ g ∈ ks) (v : Int) :
    (ks.map (fun k2 => if g = k2 then v else 0)).sum = 0 := by
  induction ks with
  | nil => rfl
  | cons a ks ih =>
    simp only [List.mem_cons] at hg
    push_neg at hg
    rw [List.map_cons, List.sum_cons, if_neg hg.1, ih hg.2]
    simp

lemma sum_indicator (ks : List String) (hnd : ks.Nodup) (g : String) (hg : g ∈ ks)
    (v : Int) : (ks.map (fun k2 => if g = k2 then v else 0)).sum = v := by
  induction ks with
  | nil => cases hg
  | cons a ks ih =>
    rw [List.map_cons, List.sum_cons]
    by_cases hga : g = a
    · rw [if_pos hga]
      have hnot : ¬ g ∈ ks := by
        rw [hga]
        exact (List.nodup_cons.mp hnd).1
      rw [sum_indicator_zero ks g hnot v]
      ring
    · rw [if_neg hga]
      have hg2 : g ∈ ks := by
        rcases List.mem_cons.mp hg with h | h
        · exact absurd h hga
        · exact h
      rw [ih (List.nodup_cons.mp hnd).2 hg2]
      ring

lemma sumSrcCnt_append (l1 l2 : List SrcRec) (k : String) :
    sumSrcCnt (l1 ++ l2) k = sumSrcCnt l1 k + sumSrcCnt l2 k := by
  simp [sumSrcCnt, List.filter_append]

lemma sumDsCnt_append (l1 l2 : List DsRec) (k : String) :
    sumDsCnt (l1 ++ l2) k = sumDsCnt l1 k + sumDsCnt l2 k := by
  simp [sumDsCnt, List.filter_append]

lemma sumSrcCnt_flatten (ls : List (List SrcRec)) (k : String) :
    sumSrcCnt ls.flatten k = (ls.map (fun l => sumSrcCnt l k)).sum := by
  induction ls with
  | nil => rfl
  | cons l ls ih =>
    rw [List.flatten_cons, sumSrcCnt_append, ih, List.map_cons, List.sum_cons]

lemma sumDsCnt_flatten (ls : List (List DsRec)) (k : String) :
    sumDsCnt ls.flatten k = (ls.map (fun l => sumDsCnt l k)).sum := by
  induction ls with
  | nil => rfl
  | cons l ls ih =>
    rw [List.flatten_cons, sumDsCnt_append, ih, List.map_cons, List.sum_cons]

lemma sumSrcCnt_groups (ks : List String) (hnd : ks.Nodup) (k : String) :
    ∀ (L : List SrcRec), (∀ r ∈ L, srcGroupKey r ∈ ks) →
      (ks.map (fun k2 => sumSrcCnt (L.filter (fun r => srcGroupKey r == k2)) k)).sum
        = sumSrcCnt L k := by
  intro L
  induction L with
  | nil =>
    intro _
    simp [sumSrcCnt]
  | cons r L ih =>
    intro hcov
    have hstep : ∀ k2, sumSrcCnt ((r :: L).filter (fun r2 => srcGroupKey r2 == k2)) k
        = (if srcGroupKey r = k2 then (if srcKey r = k then srcCnt r else 0) else 0)
          + sumSrcCnt (L.filter (fun r2 => srcGroupKey r2 == k2)) k := by
      intro k2
      by_cases hg : srcGroupKey r = k2
      · rw [List.filter_cons, if_pos (by simp [hg]), sumSrcCnt_cons, if_pos hg]
      · rw [List.filter_cons, if_neg (by simp [hg]), if_neg hg]
        simp
    have hmapc : (ks.map (fun k2 =>
        sumSrcCnt ((r :: L).filter (fun r2 => srcGroupKey r2 == k2)) k))
        = ks.map (fun k2 =>
          (if srcGroupKey r = k2 then (if srcKey r = k then srcCnt r else 0) else 0)
            + sumSrcCnt (L.filter (fun r2 => srcGroupKey r2 == k2)) k) :=
      List.map_congr_left (fun k2 _ => hstep k2)
    rw [hmapc, sum_map_add, sum_indicator ks hnd (srcGroupKey r)
        (hcov r (List.mem_cons_self r L)) _,
      ih (fun r2 h2 => hcov r2 (List.mem_cons_of_mem r h2)), sumSrcCnt_cons]

lemma sumDsCnt_groups (ks : List String) (hnd : ks.Nodup) (k : String) :
    ∀ (L : List DsRec), (∀ r ∈ L, dsGroupKey r ∈ ks) →
      (ks.map (fun k2 => sumDsCnt (L.filter (fun r => dsGroupKey r == k2)) k)).sum
        = sumDsCnt L k := by
  intro L
  induction L with
  | nil =>
    intro _
    simp [sumDsCnt]
  | cons r L ih =>
    intro hcov
    have hstep : ∀ k2, sumDsCnt ((r :: L).filter (fun r2 => dsGroupKey r2 == k2)) k
        = (if dsGroupKey r = k2 then (if dsKey r = k then dsCnt r else 0) else 0)
          + sumDsCnt (L.filter (fun r2 => dsGroupKey r2 == k2)) k := by
      intro k2
      by_cases hg : dsGroupKey r = k2
      · rw [List.filter_cons, if_pos (by simp [hg]), sumDsCnt_cons, if_pos hg]
      · rw [List.filter_cons, if_neg (by simp [hg]), if_neg hg]
        simp
    have hmapc : (ks.map (fun k2 =>
        sumDsCnt ((r :: L).filter (fun r2 => dsGroupKey r2 == k2)) k))
        = ks.map (fun k2 =>
          (if dsGroupKey r = k2 then (if dsKey r = k then dsCnt r else 0) else 0)
            + sumDsCnt (L.filter (fun r2 => dsGroupKey r2 == k2)) k) :=
      List.map_congr_left (fun k2 _ => hstep k2)
    rw [hmapc, sum_map_add, sum_indicator ks hnd (dsGroupKey r)
        (hcov r (List.mem_cons_self r L)) _,
      ih (fun r2 h2 => hcov r2 (List.mem_cons_of_mem r h2)), sumDsCnt_cons]

lemma sumSrcCnt_vennSrcSeq (src : List SrcRec) (ks : List String) (hnd : ks.Nodup)
    (hcov : ∀ r ∈ src, srcGroupKey r ∈ ks) (k : String) :
    sumSrcCnt (vennSrcSeq src ks) k = sumSrcCnt src k := by
  unfold vennSrcSeq vennGroupSrc
  rw [sumSrcCnt_flatten, List.map_map]
  have hcomp : ((fun l => sumSrcCnt l k) ∘ fun k2 =>
      (sortSrc src).filter (fun r => srcGroupKey r == k2))
      = fun k2 => sumSrcCnt ((sortSrc src).filter (fun r => srcGroupKey r == k2)) k := rfl
  rw [hcomp, sumSrcCnt_groups ks hnd k (sortSrc src)
      (fun r hr => hcov r ((mem_sortSrc _ _).mp hr))]
  exact sumSrcCnt_perm _ _ (sortSrc_perm src) k

lemma sumDsCnt_vennDsSeq (ds : List DsRec) (ks : List String) (hnd : ks.Nodup)
    (hcov : ∀ r ∈ ds, dsGroupKey r ∈ ks) (k : String) :
    sumDsCnt (vennDsSeq ds ks) k = sumDsCnt ds k := by
  unfold vennDsSeq vennGroupDs
  rw [sumDsCnt_flatten, List.map_map]
  have hcomp : ((fun l => sumDsCnt l k) ∘ fun k2 =>
      (sortDs ds).filter (fun r => dsGroupKey r == k2))
      = fun k2 => sumDsCnt ((sortDs ds).filter (fun r => dsGroupKey r == k2)) k := rfl
  rw [hcomp, sumDsCnt_groups ks hnd k (sortDs ds)
      (fun r hr => hcov r ((mem_sortDs _ _).mp hr))]
  exact sumDsCnt_perm _ _ (sortDs_perm ds) k

/- Weight of every non platform node produced by a two pass registry
   run: the sum of the table counts of the records sharing its key. -/

lemma weights_from (mkS : SrcRec → Node) (gS : SrcRec → Bool)
    (mkD : DsRec → Node) (gD : DsRec → Bool) (mix : String)
    (cm : List (String × String)) (S : List SrcRec) (D : List DsRec)
    (pids : List String)
    (hmkSid : ∀ r, (mkS r).id = srcKey r)
    (hmkSty : ∀ r, (mkS r).ntype = NodeType.source)
    (hmkStab : ∀ r, (mkS r).tables = some (srcCnt r))
    (hmkDid : ∀ r, (mkD r).id = dsKey r)
    (hmkDty : ∀ r, (mkD r).ntype = NodeType.downstream)
    (hmkDtab : ∀ r, (mkD r).tables = some (dsCnt r))
    (hgS : ∀ r ∈ S, gS r = true) (hgD : ∀ r ∈ D, gD r = true)
    (hnd : (((D.foldl (genDsNodes mkD gD mix) (S.foldl (genSrcNodes mkS gS)
        (pids.map (mkPlatformNode cm))))).map Node.id).Nodup) :
    ∀ n ∈ D.foldl (genDsNodes mkD gD mix)
        (S.foldl (genSrcNodes mkS gS) (pids.map (mkPlatformNode cm))),
      n.ntype ≠ NodeType.dataplatform →
        n.tables = some (sumSrcCnt S n.id + sumDsCnt D n.id) := by
  intro n hn hty
  have hfind := findN_of_mem _ n hn hnd
  by_cases hkp : n.id ∈ pids
  · obtain ⟨n1, hf, hty1, _⟩ := twoPass_platform mkS gS mkD gD mix cm S D pids n.id hkp
    have hn1 : n = n1 := Option.some.inj (hfind.symm.trans hf)
    exact absurd (by rw [hn1]; exact hty1) hty
  · have hnone : findN (pids.map (mkPlatformNode cm)) n.id = none := by
      rw [findN_platforms, if_neg hkp]
    by_cases hks : n.id ∈ S.map srcKey
    · obtain ⟨n1, hf, _, htab, _⟩ := twoPass_src_new mkS gS mkD gD mix
        hmkSid hmkSty hmkStab S D _ n.id hnone hgS hks
      have hn1 : n = n1 := Option.some.inj (hfind.symm.trans hf)
      rw [congrArg Node.tables hn1, htab]
    · by_cases hkd : n.id ∈ D.map dsKey
      · obtain ⟨n1, hf, _, htab, _⟩ := twoPass_ds_new mkS gS mkD gD mix
          hmkSid hmkDid hmkDty hmkDtab S D _ n.id hnone hks hgD hkd
        have hn1 : n = n1 := Option.some.inj (hfind.symm.trans hf)
        rw [congrArg Node.tables hn1, htab, sumSrcCnt_of_not_mem S _ hks]
        simp
      · have habs := twoPass_absent mkS gS mkD gD mix hmkSid hmkDid S D _ n.id
          hnone hks hkd
        rw [hfind] at habs
        exact Option.noConfusion habs

/-- C4 amended: getMainGraphData emits exactly one entity to platform
    link per source or downstream record, each carrying that record's
    own table count (the link list is the per record map of the two
    sorted passes followed by the cross platform links), and in both
    builders every non platform node's weight is the sum of the table
    counts of all records sharing its canonical key (stated under the
    platform coverage hypotheses that every record's group key is a
    discovered platform key); getVennNetworkLayout however pushes the
    entity link only when the entity node is first created and skips it
    whenever the node already exists, so the one link per record half of
    the claim holds only for the Traditional builder (see the CRM
    counterexample, which yields a single Venn link). -/
theorem C4_amended (src : List SrcRec) (ds : List DsRec) (cm : List (String × String))
    (hg1 : ∀ r ∈ src, srcGroupKey r ∈ discoveredPlatforms src ds)
    (hg2 : ∀ r ∈ ds, dsGroupKey r ∈ discoveredPlatforms src ds) :
    ((mainBuild src ds cm).links =
      ((sortSrc src).map mainSrcLinkOf ++ (sortDs ds).map mainDsLinkOf)
        ++ mainCrossLinks src ds) ∧
    (∀ r : SrcRec, (mainSrcLinkOf r).value = srcCnt r) ∧
    (∀ r : DsRec, (mainDsLinkOf r).value = dsCnt r) ∧
    (∀ n ∈ (mainBuild src ds cm).nodes, n.ntype ≠ NodeType.dataplatform →
        n.tables = some (sumSrcCnt src n.id + sumDsCnt ds n.id)) ∧
    (∀ n ∈ (vennBuildCore src ds cm).nodes, n.ntype ≠ NodeType.dataplatform →
        n.tables = some (sumSrcCnt src n.id + sumDsCnt ds n.id)) ∧
    (∀ (k : String) (st : List Node × List Link) (r : SrcRec),
        hasNode st.1 (srcKey r) = true → (vennSrcStep cm k st r).2 = st.2) ∧
    (∀ (k : String) (st : List Node × List Link) (r : DsRec),
        hasNode st.1 (dsKey r) = true → (vennDsStep cm k st r).2 = st.2) := by
  have hgSm : ∀ r ∈ sortSrc src,
      (mainPlatformOrder src ds).contains (srcGroupKey r) = true :=
    fun r hr => contains_of_mem _ _ (hg1 r ((mem_sortSrc _ _).mp hr))
  have hgDm : ∀ r ∈ sortDs ds,
      (mainPlatformOrder src ds).contains (dsGroupKey r) = true :=
    fun r hr => contains_of_mem _ _ (hg2 r ((mem_sortDs _ _).mp hr))
  have hndks : (vennPlatformOrder src ds).Nodup :=
    ((stableSortBy_perm _ _).nodup_iff).mpr (dedupKeep_nodup _)
  have hcov1 : ∀ r ∈ src, srcGroupKey r ∈ vennPlatformOrder src ds :=
    fun r hr => (mem_stableSortBy _ _ _).mpr (hg1 r hr)
  have hcov2 : ∀ r ∈ ds, dsGroupKey r ∈ vennPlatformOrder src ds :=
    fun r hr => (mem_stableSortBy _ _ _).mpr (hg2 r hr)
  refine ⟨mainBuild_links src ds cm, fun r => rfl, fun r => rfl, ?_, ?_, ?_, ?_⟩
  · intro n hn hty
    have hnd := mainBuild_nodup src ds cm
    rw [mainBuild_nodes] at hn hnd
    have h := weights_from (mkMainSrcNode cm) _ (mkMainDsNode cm) _ ("#AA46BC") cm
      (sortSrc src) (sortDs ds) (mainPlatformOrder src ds)
      (fun r => rfl) (fun r => rfl) (fun r => rfl)
      (fun r => rfl) (fun r => rfl) (fun r => rfl)
      hgSm hgDm hnd n hn hty
    rw [h, sumSrcCnt_perm _ _ (sortSrc_perm src), sumDsCnt_perm _ _ (sortDs_perm ds)]
  · intro n hn hty
    have hnd := vennBuildCore_nodup src ds cm
    rw [vennBuildCore_nodes] at hn hnd
    have h := weights_from (fun r => mkVennSrcNode cm (srcGroupKey r) r) _
      (fun r => mkVennDsNode cm (dsGroupKey r) r) _
      (lookupColor cm ("mixed") ("#AA46BC")) cm
      (vennSrcSeq src (vennPlatformOrder src ds))
      (vennDsSeq ds (vennPlatformOrder src ds)) (vennPlatformOrder src ds)
      (fun r => rfl) (fun r => rfl) (fun r => rfl)
      (fun r => rfl) (fun r => rfl) (fun r => rfl)
      (fun r _ => rfl) (fun r _ => rfl) hnd n hn hty
    rw [h, sumSrcCnt_vennSrcSeq src _ hndks hcov1, sumDsCnt_vennDsSeq ds _ hndks hcov2]
  · intro k st r h
    simp [vennSrcStep, h]
  · intro k st r h
    simp [vennDsStep, h]

theorem C4_witness :
    ((mainBuild crmSrc [] cm0).links =
      ((sortSrc crmSrc).map mainSrcLinkOf ++ (sortDs []).map mainDsLinkOf)
        ++ mainCrossLinks crmSrc []) ∧
    (∀ r : SrcRec, (mainSrcLinkOf r).value = srcCnt r) ∧
    (∀ r : DsRec, (mainDsLinkOf r).value = dsCnt r) ∧
    (∀ n ∈ (mainBuild crmSrc [] cm0).nodes, n.ntype ≠ NodeType.dataplatform →
        n.tables = some (sumSrcCnt crmSrc n.id + sumDsCnt [] n.id)) ∧
    (∀ n ∈ (vennBuildCore crmSrc [] cm0).nodes, n.ntype ≠ NodeType.dataplatform →
        n.tables = some (sumSrcCnt crmSrc n.id + sumDsCnt [] n.id)) ∧
    (∀ (k : String) (st : List Node × List Link) (r : SrcRec),
        hasNode st.1 (srcKey r) = true → (vennSrcStep cm0 k st r).2 = st.2) ∧
    (∀ (k : String) (st : List Node × List Link) (r : DsRec),
        hasNode st.1 (dsKey r) = true → (vennDsStep cm0 k st r).2 = st.2) :=
  C4_amended crmSrc [] cm0 (by decide) (by decide)

/- Lookup through the connection map upsert. -/

lemma find?_bump (m : List (String × Conn)) (kp : String) :
    (m.map (fun p => if p.1 == kp then (p.1, { p.2 with value := p.2.value + 1 }) else p)).find?
        (fun p => p.1 == kp)
      = (m.find? (fun p => p.1 == kp)).map
          (fun p => (p.1, { p.2 with value := p.2.value + 1 })) := by
  induction m with
  | nil => rfl
  | cons q m ih =>
    rw [List.map_cons]
    by_cases hq : q.1 = kp
    · rw [if_pos (show ((q.1 == kp) = true) from by simp [hq])]
      rw [List.find?_cons_of_pos]
      · rw [List.find?_cons_of_pos]
        · rfl
        · simp [hq]
      · simp [hq]
    · rw [if_neg (show ¬ ((q.1 == kp) = true) from by simp [hq])]
      rw [List.find?_cons_of_neg]
      · rw [List.find?_cons_of_neg]
        · exact ih
        · simp [hq]
      · simp [hq]

lemma find?_bump_other (m : List (String × Conn)) (kp k : String) (hk : ¬ kp = k) :
    (m.map (fun p => if p.1 == kp then (p.1, { p.2 with value := p.2.value + 1 }) else p)).find?
        (fun p => p.1 == k)
      = m.find? (fun p => p.1 == k) := by
  induction m with
  | nil => rfl
  | cons q m ih =>
    rw [List.map_cons]
    by_cases hq : q.1 = k
    · have hqp : ¬ q.1 = kp := fun hc => hk (hc.symm.trans hq)
      rw [if_neg (show ¬ ((q.1 == kp) = true) from by simp [hqp])]
      rw [List.find?_cons_of_pos]
      · rw [List.find?_cons_of_pos]
        · simp [hq]
      · simp [hq]
    · by_cases hqp : q.1 = kp
      · rw [if_pos (show ((q.1 == kp) = true) from by simp [hqp])]
        rw [List.find?_cons_of_neg]
        · rw [List.find?_cons_of_neg]
          · exact ih
          · simp [hq]
        · simp [hq]
      · rw [if_neg (show ¬ ((q.1 == kp) = true) from by simp [hqp])]
        rw [List.find?_cons_of_neg]
        · rw [List.find?_cons_of_neg]
          · exact ih
          · simp [hq]
        · simp [hq]

lemma connLookup_append (m1 m2 : List (String × Conn)) (k : String) :
    connLookup (m1 ++ m2) k = (connLookup m1 k).or (connLookup m2 k) := by
  unfold connLookup
  exact List.find?_append

lemma connUpsert_lookup_self_some (a b : String) (m : List (String × Conn))
    (k' : String) (c : Conn) (h : connLookup m (pairKey a b) = some (k', c)) :
    connLookup (connUpsert a b m) (pairKey a b)
      = some (k', { c with value := c.value + 1 }) := by
  have hf : m.find? (fun p => p.1 == pairKey a b) = some (k', c) := h
  have hpk := @List.find?_some _ (fun p => p.1 == pairKey a b) (k', c) m hf
  have ha : m.any (fun p => p.1 == pairKey a b) = true :=
    List.any_eq_true.mpr ⟨(k', c), List.mem_of_find?_eq_some hf, hpk⟩
  simp only [connUpsert, connLookup]
  rw [if_pos ha, find?_bump, hf]
  rfl

lemma connUpsert_lookup_self_none (a b : String) (m : List (String × Conn))
    (h : connLookup m (pairKey a b) = none) :
    connLookup (connUpsert a b m) (pairKey a b)
      = some (pairKey a b, { source := a, target := b, value := 1 }) := by
  have hf : m.find? (fun p => p.1 == pairKey a b) = none := h
  have ha : ¬ m.any (fun p => p.1 == pairKey a b) = true := by
    rw [List.any_eq_true]
    rintro ⟨p, hp, hpk⟩
    exact absurd hpk (by simpa using (List.find?_eq_none.mp hf) p hp)
  simp only [connUpsert]
  rw [if_neg ha, connLookup_append, h]
  simp [connLookup]

lemma connUpsert_lookup_other (a b k : String) (m : List (String × Conn))
    (hk : ¬ pairKey a b = k) :
    connLookup (connUpsert a b m) k = connLookup m k := by
  simp only [connUpsert]
  by_cases ha : m.any (fun p => p.1 == pairKey a b) = true
  · rw [if_pos ha]
    exact find?_bump_other m _ k hk
  · rw [if_neg ha, connLookup_append]
    have h2 : connLookup [(pairKey a b, ({ source := a, target := b, value := 1 } : Conn))] k
        = none := by
      simp [connLookup, hk]
    rw [h2]
    cases connLookup m k <;> rfl

/- Characterization of the nested cross platform fold: the entry of a
   key accumulates one increment per hitting pair, with the orientation
   of the first hitting pair. -/

lemma connFold_lookup_some (pa : SrcRec → String) (pb : DsRec → String)
    (hit : SrcRec → DsRec → Bool) (L : List (SrcRec × DsRec)) :
    ∀ (m : List (String × Conn)) (k k' : String) (c : Conn),
      connLookup m k = some (k', c) →
      ∃ c1, connLookup (L.foldl (fun m2 p => genConnStep pa pb hit m2 p.1 p.2) m) k
          = some (k', c1) ∧ c1.source = c.source ∧ c1.target = c.target ∧
        c1.value = c.value + (countHit pa pb hit L k : Int) := by
  induction L with
  | nil =>
    intro m k k' c h
    exact ⟨c, h, rfl, rfl, by simp [countHit]⟩
  | cons p L ih =>
    intro m k k' c h
    rw [List.foldl_cons]
    by_cases hh : hit p.1 p.2 = true
    · by_cases hk2 : pairKey (pa p.1) (pb p.2) = k
      · have hst : genConnStep pa pb hit m p.1 p.2 = connUpsert (pa p.1) (pb p.2) m := by
          simp [genConnStep, hh]
        have h2 := connUpsert_lookup_self_some (pa p.1) (pb p.2) m k' c (by rw [hk2]; exact h)
        rw [hk2] at h2
        obtain ⟨c1, hf, hs, ht, hv⟩ := ih _ k k' _ h2
        have hcnt : countHit pa pb hit (p :: L) k = countHit pa pb hit L k + 1 := by
          simp [countHit, List.countP_cons, hh, hk2]
        refine ⟨c1, by rw [hst]; exact hf, hs, ht, ?_⟩
        have hv2 : c1.value = c.value + 1 + (countHit pa pb hit L k : Int) := hv
        rw [hv2, hcnt]
        push_cast
        ring
      · have hst : genConnStep pa pb hit m p.1 p.2 = connUpsert (pa p.1) (pb p.2) m := by
          simp [genConnStep, hh]
        have h2 : connLookup (connUpsert (pa p.1) (pb p.2) m) k = some (k', c) := by
          rw [connUpsert_lookup_other _ _ _ _ hk2]
          exact h
        obtain ⟨c1, hf, hs, ht, hv⟩ := ih _ k k' _ h2
        have hcnt : countHit pa pb hit (p :: L) k = countHit pa pb hit L k := by
          simp [countHit, List.countP_cons, hk2]
        exact ⟨c1, by rw [hst]; exact hf, hs, ht, by rw [hv, hcnt]⟩
    · have hst : genConnStep pa pb hit m p.1 p.2 = m := by
        simp [genConnStep, hh]
      obtain ⟨c1, hf, hs, ht, hv⟩ := ih m k k' c h
      have hcnt : countHit pa pb hit (p :: L) k = countHit pa pb hit L k := by
        simp [countHit, List.countP_cons, hh]
      exact ⟨c1, by rw [hst]; exact hf, hs, ht, by rw [hv, hcnt]⟩

lemma connFold_lookup_none (pa : SrcRec → String) (pb : DsRec → String)
    (hit : SrcRec → DsRec → Bool) (L : List (SrcRec × DsRec)) :
    ∀ (m : List (String × Conn)) (k : String),
      connLookup m k = none →
      connLookup (L.foldl (fun m2 p => genConnStep pa pb hit m2 p.1 p.2) m) k
        = (firstHit pa pb hit L k).map (fun o =>
            (k, { source := o.1, target := o.2,
                  value := (countHit pa pb hit L k : Int) })) := by
  induction L with
  | nil =>
    intro m k h
    simp only [List.foldl_nil, firstHit, List.find?_nil, Option.map_none]
    exact h
  | cons p L ih =>
    intro m k h
    rw [List.foldl_cons]
    by_cases hh : hit p.1 p.2 = true
    · by_cases hk2 : pairKey (pa p.1) (pb p.2) = k
      · have hst : genConnStep pa pb hit m p.1 p.2 = connUpsert (pa p.1) (pb p.2) m := by
          simp [genConnStep, hh]
        have h2 := connUpsert_lookup_self_none (pa p.1) (pb p.2) m (by rw [hk2]; exact h)
        rw [hk2] at h2
        obtain ⟨c1, hf, hs, ht, hv⟩ := connFold_lookup_some pa pb hit L _ k k _ h2
        have hcnt : countHit pa pb hit (p :: L) k = countHit pa pb hit L k + 1 := by
          simp [countHit, List.countP_cons, hh, hk2]
        have hfirst : firstHit pa pb hit (p :: L) k = some (pa p.1, pb p.2) := by
          unfold firstHit
          rw [List.find?_cons_of_pos]
          · rfl
          · simp [hh, hk2]
        rw [hst, hf, hfirst]
        have hc1 : c1 = { source := pa p.1, target := pb p.2,
                          value := (countHit pa pb hit (p :: L) k : Int) } := by
          obtain ⟨s1, t1, v1⟩ := c1
          simp only [Conn.mk.injEq]
          refine ⟨hs, ht, ?_⟩
          have hv3 : v1 = 1 + (countHit pa pb hit L k : Int) := hv
          rw [hv3, hcnt]
          push_cast
          ring
        rw [hc1]
        rfl
      · have hst : genConnStep pa pb hit m p.1 p.2 = connUpsert (pa p.1) (pb p.2) m := by
          simp [genConnStep, hh]
        have h2 : connLookup (connUpsert (pa p.1) (pb p.2) m) k = none := by
          rw [connUpsert_lookup_other _ _ _ _ hk2]
          exact h
        have hfirst : firstHit pa pb hit (p :: L) k = firstHit pa pb hit L k := by
          unfold firstHit
          rw [List.find?_cons_of_neg]
          simp [hk2]
        have hcnt : countHit pa pb hit (p :: L) k = countHit pa pb hit L k := by
          simp [countHit, List.countP_cons, hk2]
        rw [hst, ih _ k h2, hfirst, hcnt]
    · have hst : genConnStep pa pb hit m p.1 p.2 = m := by
        simp [genConnStep, hh]
      have hfirst : firstHit pa pb hit (p :: L) k = firstHit pa pb hit L k := by
        unfold firstHit
        rw [List.find?_cons_of_neg]
        simp [hh]
      have hcnt : countHit pa pb hit (p :: L) k = countHit pa pb hit L k := by
        simp [countHit, List.countP_cons, hh]
      rw [hst, ih m k h, hfirst, hcnt]

lemma connFold_lookup (pa : SrcRec → String) (pb : DsRec → String)
    (hit : SrcRec → DsRec → Bool) (L : List (SrcRec × DsRec)) (k : String) :
    connLookup (L.foldl (fun m2 p => genConnStep pa pb hit m2 p.1 p.2) []) k
      = (firstHit pa pb hit L k).map (fun o =>
          (k, { source := o.1, target := o.2,
                value := (countHit pa pb hit L k : Int) })) :=
  connFold_lookup_none pa pb hit L [] k rfl

/- The nested double loop visits exactly the pair list, left to right. -/

lemma nestedFold_pairList (pa : SrcRec → String) (pb : DsRec → String)
    (hit : SrcRec → DsRec → Bool) (src : List SrcRec) (ds : List DsRec) :
    ∀ m0, src.foldl (fun m s => ds.foldl (fun m2 d => genConnStep pa pb hit m2 s d) m) m0
      = (pairList src ds).foldl (fun m2 p => genConnStep pa pb hit m2 p.1 p.2) m0 := by
  induction src with
  | nil => intro m0; rfl
  | cons s src ih =>
    intro m0
    rw [List.foldl_cons, ih]
    unfold pairList
    rw [List.flatMap_cons, List.foldl_append, List.foldl_map]

lemma mainConnList_eq (src : List SrcRec) (ds : List DsRec) :
    mainConnList src ds = (pairList (sortSrc src) (sortDs ds)).foldl
      (fun m2 p => genConnStep srcGroupKey dsGroupKey mainHitB m2 p.1 p.2) [] :=
  nestedFold_pairList srcGroupKey dsGroupKey mainHitB (sortSrc src) (sortDs ds) []

lemma vennConnList_eq (src : List SrcRec) (ds : List DsRec) :
    vennConnList src ds = (pairList src ds).foldl
      (fun m2 p => genConnStep vennSPlat vennDPlat vennHitB m2 p.1 p.2) [] :=
  nestedFold_pairList vennSPlat vennDPlat vennHitB src ds []

/- The bridging count does not depend on the sorting of the two record
   lists. -/

lemma countP_pairList (S : List SrcRec) (D : List DsRec) (pred : SrcRec × DsRec → Bool) :
    (pairList S D).countP pred = (S.map (fun s => D.countP (fun d => pred (s, d)))).sum := by
  induction S with
  | nil => rfl
  | cons s S ih =>
    unfold pairList at ih ⊢
    rw [List.flatMap_cons, List.countP_append, ih, List.map_cons, List.sum_cons]
    congr 1
    rw [List.countP_map]
    rfl

lemma countHit_sorted (pa : SrcRec → String) (pb : DsRec → String)
    (hit : SrcRec → DsRec → Bool) (src : List SrcRec) (ds : List DsRec) (k : String) :
    countHit pa pb hit (pairList (sortSrc src) (sortDs ds)) k
      = countHit pa pb hit (pairList src ds) k := by
  unfold countHit
  rw [countP_pairList, countP_pairList]
  have hmap : (sortSrc src).map (fun s => (sortDs ds).countP
      (fun d => hit (s, d).1 (s, d).2 && (pairKey (pa (s, d).1) (pb (s, d).2) == k)))
      = (sortSrc src).map (fun s => ds.countP
        (fun d => hit (s, d).1 (s, d).2 && (pairKey (pa (s, d).1) (pb (s, d).2) == k))) :=
    List.map_congr_left (fun s _ => (sortDs_perm ds).countP_eq _)
  rw [hmap]
  exact ((sortSrc_perm src).map _).sum_eq

/- Every entry of the aggregated map is found by lookup of its own key:
   the upsert never duplicates a key. -/

lemma find?_bump_all (m : List (String × Conn)) (kp k : String) :
    (m.map (fun p => if p.1 == kp then (p.1, { p.2 with value := p.2.value + 1 }) else p)).find?
        (fun p => p.1 == k)
      = (m.find? (fun p => p.1 == k)).map
          (fun p => if p.1 == kp then (p.1, { p.2 with value := p.2.value + 1 }) else p) := by
  by_cases hk : kp = k
  · subst hk
    rw [find?_bump m kp]
    rcases hm : m.find? (fun p => p.1 == kp) with _ | q
    · rw [hm]
      rfl
    · have hq2 : q.1 = kp := by
        simpa using @List.find?_some _ (fun p => p.1 == kp) q m hm
      rw [hm]
      simp [hq2]
  · rw [find?_bump_other m kp k hk]
    rcases hm : m.find? (fun p => p.1 == k) with _ | q
    · rw [hm]
      rfl
    · have hq2 : q.1 = k := by
        simpa using @List.find?_some _ (fun p => p.1 == k) q m hm
      have hqkp : ¬ q.1 = kp := fun hc => hk (hc.symm.trans hq2)
      rw [hm]
      simp [hqkp]

lemma connUpsert_faithful (a b : String) (m : List (String × Conn))
    (h : ∀ p ∈ m, connLookup m p.1 = some p) :
    ∀ p ∈ connUpsert a b m, connLookup (connUpsert a b m) p.1 = some p := by
  intro p hp
  simp only [connUpsert] at hp ⊢
  by_cases ha : m.any (fun q => q.1 == pairKey a b) = true
  · rw [if_pos ha] at hp ⊢
    obtain ⟨q, hq, hfq⟩ := List.mem_map.mp hp
    have hkey : p.1 = q.1 := by
      rw [← hfq]
      by_cases hqk : q.1 = pairKey a b
      · simp [hqk]
      · simp [hqk]
    unfold connLookup
    rw [hkey, find?_bump_all]
    have h2 : m.find? (fun r => r.1 == q.1) = some q := h q hq
    rw [h2, Option.map_some', hfq]
  · rw [if_neg ha] at hp ⊢
    rcases List.mem_append.mp hp with hm | he
    · have h2 : connLookup m p.1 = some p := h p hm
      rw [connLookup_append, h2]
      rfl
    · have hpe : p = (pairKey a b, ({ source := a, target := b, value := 1 } : Conn)) := by
        simpa using he
      have hnone : connLookup m p.1 = none := by
        rw [hpe]
        rcases hm : connLookup m (pairKey a b) with _ | q
        · rfl
        · have hm2 : m.find? (fun r => r.1 == pairKey a b) = some q := hm
          have hqm := List.mem_of_find?_eq_some hm2
          have hqk : (fun r => r.1 == pairKey a b) q = true :=
            @List.find?_some _ (fun r => r.1 == pairKey a b) q m hm2
          exact absurd (List.any_eq_true.mpr ⟨q, hqm, hqk⟩) ha
      rw [connLookup_append, hnone]
      rw [hpe]
      simp [connLookup]

lemma connFold_faithful (pa : SrcRec → String) (pb : DsRec → String)
    (hit : SrcRec → DsRec → Bool) (L : List (SrcRec × DsRec)) :
    ∀ (m : List (String × Conn)), (∀ p ∈ m, connLookup m p.1 = some p) →
      ∀ p ∈ (L.foldl (fun m2 q => genConnStep pa pb hit m2 q.1 q.2) m),
        connLookup (L.foldl (fun m2 q => genConnStep pa pb hit m2 q.1 q.2) m) p.1
          = some p := by
  induction L with
  | nil => intro m h; exact h
  | cons q L ih =>
    intro m h
    rw [List.foldl_cons]
    by_cases hh : hit q.1 q.2 = true
    · have hst : genConnStep pa pb hit m q.1 q.2 = connUpsert (pa q.1) (pb q.2) m := by
        simp [genConnStep, hh]
    
      rw [hst]
      exact ih _ (connUpsert_faithful (pa q.1) (pb q.2) m h)
    · have hst : genConnStep pa pb hit m q.1 q.2 = m := by
        simp [genConnStep, hh]
      rw [hst]
      exact ih m h

/- Links pushed by the per group phases of the Venn builder are solid;
   dashed links come only from the thresholded cross platform scan. -/

lemma vennSrcStep_links (cm : List (String × String)) (k : String)
    (st : List Node × List Link) (r : SrcRec) :
    ∀ l ∈ (vennSrcStep cm k st r).2, l ∈ st.2 ∨ l.ltype = LineType.solid := by
  intro l hl
  simp only [vennSrcStep] at hl
  by_cases h : hasNode st.1 (srcKey r) = true
  · rw [if_pos h] at hl
    exact Or.inl hl
  · rw [if_neg h] at hl
    rcases List.mem_append.mp hl with h1 | h2
    · exact Or.inl h1
    · right
      have : l = { source := srcKey r, target := k, value := srcCnt r,
                   ltype := LineType.solid } := by simpa using h2
      rw [this]

lemma vennDsStep_links (cm : List (String × String)) (k : String)
    (st : List Node × List Link) (r : DsRec) :
    ∀ l ∈ (vennDsStep cm k st r).2, l ∈ st.2 ∨ l.ltype = LineType.solid := by
  intro l hl
  simp only [vennDsStep] at hl
  by_cases h : hasNode st.1 (dsKey r) = true
  · rw [if_pos h] at hl
    exact Or.inl hl
  · rw [if_neg h] at hl
    rcases List.mem_append.mp hl with h1 | h2
    · exact Or.inl h1
    · right
      have : l = { source := k, target := dsKey r, value := dsCnt r,
                   ltype := LineType.solid } := by simpa using h2
      rw [this]

lemma vennSrcFold_links_solid (cm : List (String × String)) (k : String)
    (L : List SrcRec) :
    ∀ (st : List Node × List Link), (∀ l ∈ st.2, l.ltype = LineType.solid) →
      ∀ l ∈ (L.foldl (vennSrcStep cm k) st).2, l.ltype = LineType.solid := by
  induction L with
  | nil => intro st h; exact h
  | cons r L ih =>
    intro st h
    rw [List.foldl_cons]
    refine ih _ ?_
    intro l hl
    rcases vennSrcStep_links cm k st r l hl with h1 | h2
    · exact h l h1
    · exact h2

lemma vennDsFold_links_solid (cm : List (String × String)) (k : String)
    (L : List DsRec) :
    ∀ (st : List Node × List Link), (∀ l ∈ st.2, l.ltype = LineType.solid) →
      ∀ l ∈ (L.foldl (vennDsStep cm k) st).2, l.ltype = LineType.solid := by
  induction L with
  | nil => intro st h; exact h
  | cons r L ih =>
    intro st h
    rw [List.foldl_cons]
    refine ih _ ?_
    intro l hl
    rcases vennDsStep_links cm k st r l hl with h1 | h2
    · exact h l h1
    · exact h2

lemma vennSrcPhase_links_solid (cm : List (String × String)) (src : List SrcRec)
    (ks : List String) :
    ∀ (st : List Node × List Link), (∀ l ∈ st.2, l.ltype = LineType.solid) →
      ∀ l ∈ (vennSrcPhase cm src ks st).2, l.ltype = LineType.solid := by
  induction ks with
  | nil => intro st h; exact h
  | cons k ks ih =>
    intro st h
    unfold vennSrcPhase
    rw [List.foldl_cons]
    exact ih _ (vennSrcFold_links_solid cm k (vennGroupSrc src k) st h)

lemma vennDsPhase_links_solid (cm : List (String × String)) (ds : List DsRec)
    (ks : List String) :
    ∀ (st : List Node × List Link), (∀ l ∈ st.2, l.ltype = LineType.solid) →
      ∀ l ∈ (vennDsPhase cm ds ks st).2, l.ltype = LineType.solid := by
  induction ks with
  | nil => intro st h; exact h
  | cons k ks ih =>
    intro st h
    unfold vennDsPhase
    rw [List.foldl_cons]
    exact ih _ (vennDsFold_links_solid cm k (vennGroupDs ds k) st h)

lemma vennBuildCore_links (src : List SrcRec) (ds : List DsRec)
    (cm : List (String × String)) :
    (vennBuildCore src ds cm).links
      = (vennDsPhase cm ds (vennPlatformOrder src ds)
          (vennSrcPhase cm src (vennPlatformOrder src ds)
            ((vennPlatformOrder src ds).map (mkPlatformNode cm), []))).2
        ++ vennCrossLinks src ds := rfl

/-- C2 amended: in both builders the aggregated entry of a platform pair
    key carries the orientation of the first bridging record pair and a
    value equal to the total bridging count for that key, but only
    getVennNetworkLayout applies the materiality threshold: its dashed
    platform to platform links are exactly the aggregated entries with
    count strictly greater than 3 (all its per entity links are solid),
    while getMainGraphData pushes every aggregated entry as a dashed
    link with no threshold at all, so a pair with count at most 3 does
    appear there (see the counterexample with a count of 1). -/
theorem C2_amended (src : List SrcRec) (ds : List DsRec) (cm : List (String × String)) :
    (∀ k, connLookup (vennConnList src ds) k
        = (firstHit vennSPlat vennDPlat vennHitB (pairList src ds) k).map (fun o =>
            (k, { source := o.1, target := o.2,
                  value := (vennBridgeCount src ds k : Int) }))) ∧
    (∀ k, connLookup (mainConnList src ds) k
        = (firstHit srcGroupKey dsGroupKey mainHitB
              (pairList (sortSrc src) (sortDs ds)) k).map (fun o =>
            (k, { source := o.1, target := o.2,
                  value := (mainBridgeCount src ds k : Int) }))) ∧
    (∀ p ∈ vennConnList src ds, p.2.value = (vennBridgeCount src ds p.1 : Int)) ∧
    (∀ p ∈ mainConnList src ds, p.2.value = (mainBridgeCount src ds p.1 : Int)) ∧
    (∀ l, (l ∈ (vennBuildCore src ds cm).links ∧ l.ltype = LineType.dashed) ↔
        (∃ p ∈ vennConnList src ds, 3 < p.2.value ∧
          l = { source := p.2.source, target := p.2.target, value := p.2.value,
                ltype := LineType.dashed })) ∧
    (∀ p ∈ mainConnList src ds,
        { source := p.2.source, target := p.2.target, value := p.2.value,
          ltype := LineType.dashed } ∈ (mainBuild src ds cm).links) := by
  have hfaithV : ∀ p ∈ vennConnList src ds,
      connLookup (vennConnList src ds) p.1 = some p := by
    rw [vennConnList_eq]
    exact connFold_faithful vennSPlat vennDPlat vennHitB (pairList src ds) []
      (fun q hq => absurd hq (List.not_mem_nil q))
  have hfaithM : ∀ p ∈ mainConnList src ds,
      connLookup (mainConnList src ds) p.1 = some p := by
    rw [mainConnList_eq]
    exact connFold_faithful srcGroupKey dsGroupKey mainHitB
      (pairList (sortSrc src) (sortDs ds)) []
      (fun q hq => absurd hq (List.not_mem_nil q))
  have hcharV : ∀ k, connLookup (vennConnList src ds) k
      = (firstHit vennSPlat vennDPlat vennHitB (pairList src ds) k).map (fun o =>
          (k, { source := o.1, target := o.2,
                value := (vennBridgeCount src ds k : Int) })) := by
    intro k
    rw [vennConnList_eq]
    exact connFold_lookup vennSPlat vennDPlat vennHitB (pairList src ds) k
  have hcharM : ∀ k, connLookup (mainConnList src ds) k
      = (firstHit srcGroupKey dsGroupKey mainHitB
            (pairList (sortSrc src) (sortDs ds)) k).map (fun o =>
          (k, { source := o.1, target := o.2,
                value := (mainBridgeCount src ds k : Int) })) := by
    intro k
    rw [mainConnList_eq, connFold_lookup]
    simp only [countHit_sorted]
    rfl
  refine ⟨hcharV, hcharM, ?_, ?_, ?_, ?_⟩
  · intro p hp
    have hl := hfaithV p hp
    have hc := hcharV p.1
    rw [hl] at hc
    rcases hfh : firstHit vennSPlat vennDPlat vennHitB (pairList src ds) p.1 with _ | o
    · rw [hfh] at hc
      exact Option.noConfusion hc
    · rw [hfh, Option.map_some'] at hc
      exact congrArg (fun q => q.2.value) (Option.some.inj hc)
  · intro p hp
    have hl := hfaithM p hp
    have hc := hcharM p.1
    rw [hl] at hc
    rcases hfh : firstHit srcGroupKey dsGroupKey mainHitB
        (pairList (sortSrc src) (sortDs ds)) p.1 with _ | o
    · rw [hfh] at hc
      exact Option.noConfusion hc
    · rw [hfh, Option.map_some'] at hc
      exact congrArg (fun q => q.2.value) (Option.some.inj hc)
  · intro l
    constructor
    · rintro ⟨hl, hd⟩
      rw [vennBuildCore_links] at hl
      rcases List.mem_append.mp hl with h1 | h2
      · have hs := vennDsPhase_links_solid cm ds _ _
          (vennSrcPhase_links_solid cm src _ _
            (fun l2 hl2 => absurd hl2 (List.not_mem_nil l2))) l h1
        rw [hd] at hs
        exact absurd hs (by decide)
      · unfold vennCrossLinks at h2
        obtain ⟨p, hpf, hpl⟩ := List.mem_map.mp h2
        have hpc := List.mem_filter.mp hpf
        exact ⟨p, hpc.1, by simpa using hpc.2, hpl.symm⟩
    · rintro ⟨p, hp, hv, hl⟩
      constructor
      · rw [vennBuildCore_links]
        refine List.mem_append.mpr (Or.inr ?_)
        unfold vennCrossLinks
        exact List.mem_map.mpr ⟨p, List.mem_filter.mpr ⟨hp, by simpa using hv⟩, hl.symm⟩
      · rw [hl]
  · intro p hp
    rw [mainBuild_links]
    refine List.mem_append.mpr (Or.inr ?_)
    unfold mainCrossLinks
    exact List.mem_map.mpr ⟨p, hp, rfl⟩
